import Mathlib

/-!
# gsh: a data-access helper over database/sql

A shallow embedding of `database.go`: the mutation executors `Add` and `Exec`,
the dynamic row reader `Query` and the record binders `Get` and `GetAll`.

The external collaborators are inputs of the model:

* the driver is a record of what each driver call returns (an error or a value);
* the error sink `ProcessSqlError` is the list of errors handed to it, in call order;
* `strconv.ParseFloat`, the naming-convention function `UnderlineToPascal` and the
  conversions done by `rows.Scan` are parameters;
* `strconv.ParseUint`, `strconv.ParseInt`, `strconv.Atoi` and `strconv.ParseBool`
  are modelled for base 10 and 64 bits, the way `Query` calls them.
-/

deriving instance DecidableEq for Except

namespace Gsh

/-! ## Errors and the error sink -/

/-- The two failure kinds of a `*strconv.NumError`. -/
inductive NumErrorKind
  | errSyn
  | errRange
  deriving DecidableEq, Repr

/-- Errors handed to `ProcessSqlError`. -/
inductive SqlError
  /-- an error returned by a `database/sql` call -/
  | driver (msg : String)
  /-- a `*strconv.NumError` of function `fn` on input `num` -/
  | num (fn : String) (num : String) (kind : NumErrorKind)
  /-- an error built by `errors.New` -/
  | msg (text : String)
  /-- the error `rows.Scan` returns for the column at `index`, named `name`:
  `sql: Scan error on column index <index>, name <name>: <cause>` -/
  | scan (index : Nat) (name : String) (cause : SqlError)
  /-- the error of a text that does not parse as a number:
  `converting driver.Value type <goType> (<text>) to a <kind>: <cause>` -/
  | converting (goType : String) (text : String) (kind : String) (cause : NumErrorKind)
  /-- the error `converting NULL to <kind> is unsupported` -/
  | convertingNull (kind : String)
  /-- the error `sql/driver: couldn't convert <shown> into type bool`, `shown` being the
  source value -/
  | notBool (shown : String)
  deriving DecidableEq, Repr

/-- What a call returns together with the errors it handed to `ProcessSqlError`. -/
structure Call (α : Type) where
  ret : α
  sink : List SqlError
  deriving DecidableEq, Repr

/-! ## Mutation executors -/

/-- The driver as `Add` and `Exec` see it: the error of `DB.Prepare`, the error of
`stmt.Exec`, and the pairs returned by `result.LastInsertId()` and
`result.RowsAffected()`. -/
structure ExecDriver where
  prepare : Option SqlError
  exec : Option SqlError
  lastInsertId : Int × Option SqlError
  rowsAffected : Int × Option SqlError
  deriving DecidableEq, Repr

/-- `Add`: the named result `id` starts at 0 and is assigned by
`id, err = result.LastInsertId()` before `err` is tested. -/
def Add (d : ExecDriver) : Call Int :=
  match d.prepare with
  | some err => ⟨0, [err]⟩
  | none =>
    match d.exec with
    | some err => ⟨0, [err]⟩
    | none =>
      match d.lastInsertId with
      | (id, some err) => ⟨id, [err]⟩
      | (id, none) => ⟨id, []⟩

/-- `Exec`: the named result `rows` starts at 0 and is assigned by
`rows, err = result.RowsAffected()` before `err` is tested. -/
def Exec (d : ExecDriver) : Call Int :=
  match d.prepare with
  | some err => ⟨0, [err]⟩
  | none =>
    match d.exec with
    | some err => ⟨0, [err]⟩
    | none =>
      match d.rowsAffected with
      | (rows, some err) => ⟨rows, [err]⟩
      | (rows, none) => ⟨rows, []⟩

/-! ## strconv, base 10, 64 bits -/

/-- The largest `uint64`. -/
def maxUint64 : Nat := 2 ^ 64 - 1

/-- The loop of `strconv.ParseUint(s, 10, 64)` over the bytes of `s`, `n` being the
value accumulated so far. A digit is accepted when `n < maxUint64/10 + 1` and
`n*10 + d` does not wrap around `2^64`. -/
def parseUintLoop : List Char → Nat → Except NumErrorKind Nat
  | [], n => .ok n
  | c :: cs, n =>
    if '0' ≤ c ∧ c ≤ '9' then
      let d := c.toNat - '0'.toNat
      if n ≥ maxUint64 / 10 + 1 then .error .errRange
      else
        let n10 := n * 10
        let n1 := (n10 + d) % 2 ^ 64
        if n1 < n10 ∨ n1 > maxUint64 then .error .errRange
        else parseUintLoop cs n1
    else .error .errSyn

/-- `strconv.ParseUint(s, 10, 64)`. -/
def parseUint (s : String) : Except NumErrorKind Nat :=
  if s = "" then .error .errSyn else parseUintLoop s.toList 0

/-- `strconv.ParseInt(s, 10, 64)` on the characters of `s`: an optional sign, then
`ParseUint`, then the range test against `2^63`. -/
def parseIntChars : List Char → Except NumErrorKind Int
  | [] => .error .errSyn
  | c :: cs =>
    let neg := c = '-'
    let body := if c = '+' ∨ c = '-' then cs else c :: cs
    if body = [] then .error .errSyn
    else
      match parseUintLoop body 0 with
      | .error .errSyn => .error .errSyn
      | .error .errRange => .error .errRange
      | .ok un =>
        if ¬ neg ∧ un ≥ 2 ^ 63 then .error .errRange
        else if neg ∧ un > 2 ^ 63 then .error .errRange
        else if neg then .ok (- (un : Int)) else .ok (un : Int)

/-- `strconv.ParseInt(s, 10, 64)`. -/
def parseInt (s : String) : Except NumErrorKind Int :=
  parseIntChars s.toList

/-- `strconv.Atoi(s)` where `int` has 64 bits: it returns what
`ParseInt(s, 10, 0)` returns. -/
def atoi (s : String) : Except NumErrorKind Int :=
  parseInt s

/-- `strconv.ParseBool(s)`. -/
def parseBool (s : String) : Except NumErrorKind Bool :=
  match s with
  | "1" | "t" | "T" | "TRUE" | "true" | "True" => .ok true
  | "0" | "f" | "F" | "FALSE" | "false" | "False" => .ok false
  | _ => .error .errSyn

/-! ## Dynamic row reader -/

/-- A value stored in a generic record (`interface{}`), `F` being the type of
`float64` values: the nil `[]byte` of a null cell, or what a `strconv` routine or the
text passthrough produced. -/
inductive Value (F : Type)
  /-- the nil `[]byte` stored for a null cell -/
  | nilBytes
  /-- an `int`, from `strconv.Atoi` -/
  | int (n : Int)
  /-- an `int64`, from `strconv.ParseInt` -/
  | int64 (n : Int)
  /-- a `uint64`, from `strconv.ParseUint` -/
  | uint64 (n : Nat)
  /-- a `float64`, from `strconv.ParseFloat` -/
  | float64 (x : F)
  /-- a `string` -/
  | string (s : String)
  /-- a `bool`, from `strconv.ParseBool` -/
  | bool (b : Bool)
  deriving DecidableEq, Repr

/-- A generic record, `map[string]interface{}`: at most one entry for each key. -/
abbrev Record (F : Type) := List (String × Value F)

/-- The map read `m[k]`. -/
def Record.get {F : Type} (m : Record F) (k : String) : Option (Value F) :=
  match m with
  | [] => none
  | (k1, v) :: rest => if k1 = k then some v else Record.get rest k

/-- The map write `m[k] = v`: the entry of `k` is replaced if there is one. -/
def Record.set {F : Type} (m : Record F) (k : String) (v : Value F) : Record F :=
  match m with
  | [] => [(k, v)]
  | (k1, v1) :: rest => if k1 = k then (k, v) :: rest else (k1, v1) :: Record.set rest k v

/-- A column of a result cursor: its name (`rows.Columns()`) and the name of its scan
type (`cts[k].ScanType().String()`). -/
structure Column where
  name : String
  scanType : String
  deriving DecidableEq, Repr

/-- The `switch st` of `Query` on the text `vs` of a non-null cell: the value stored in
the record, or the error handed to the sink before the bare `return`. -/
def coerceText {F : Type} (parseFloat : String → Except NumErrorKind F)
    (st : String) (vs : String) : Except SqlError (Value F) :=
  match st with
  | "int" =>
    match atoi vs with
    | .error e => .error (.num "Atoi" vs e)
    | .ok x => .ok (.int x)
  | "int8" | "int16" | "int32" | "int64" =>
    match parseInt vs with
    | .error e => .error (.num "ParseInt" vs e)
    | .ok x => .ok (.int64 x)
  | "uint" | "uint8" | "uint16" | "uint32" | "uint64" =>
    match parseUint vs with
    | .error e => .error (.num "ParseUint" vs e)
    | .ok x => .ok (.uint64 x)
  | "float32" | "float64" =>
    match parseFloat vs with
    | .error e => .error (.num "ParseFloat" vs e)
    | .ok x => .ok (.float64 x)
  | "string" => .ok (.string vs)
  | "bool" =>
    match parseBool vs with
    | .error e => .error (.num "ParseBool" vs e)
    | .ok x => .ok (.bool x)
  | "sql.NullBool" =>
    match parseBool vs with
    | .error e => .error (.num "ParseBool" vs e)
    | .ok x => .ok (.bool x)
  | "sql.NullFloat64" =>
    match parseFloat vs with
    | .error e => .error (.num "ParseFloat" vs e)
    | .ok x => .ok (.float64 x)
  | "sql.NullInt32" | "sql.NullInt64" =>
    match parseInt vs with
    | .error e => .error (.num "ParseInt" vs e)
    | .ok x => .ok (.int64 x)
  | "sql.NullString" => .ok (.string vs)
  | "sql.NullTime" => .ok (.string vs)
  | "sql.RawBytes" => .ok (.string vs)
  | _ => .ok (.string vs)

/-- One cell of `Query`: a nil `[]byte` is stored as it is, before the `switch`;
any other cell goes through the `switch`. -/
def coerceCell {F : Type} (parseFloat : String → Except NumErrorKind F)
    (st : String) (v : Option String) : Except SqlError (Value F) :=
  match v with
  | none => .ok .nilBytes
  | some vs => coerceText parseFloat st vs

/-- The inner loop `for k, v := range vals` of `Query`, filling `tmp`; the cells of
the row stand in column order. -/
def fillRecord {F : Type} (parseFloat : String → Except NumErrorKind F) :
    List Column → List (Option String) → Record F → Except SqlError (Record F)
  | c :: cs, v :: vs, tmp =>
    match coerceCell parseFloat c.scanType v with
    | .error e => .error e
    | .ok x => fillRecord parseFloat cs vs (tmp.set c.name x)
  | _, _, tmp => .ok tmp

/-- The driver as `Query` sees it: the errors of `DB.Prepare`, `stmt.Query`,
`rows.Columns()` and `rows.ColumnTypes()`, the columns, and for each `rows.Next()` that
answers true what `rows.Scan` leaves in `vals` (`none` is a nil `[]byte`) or its
error. -/
structure QueryDriver where
  prepare : Option SqlError
  query : Option SqlError
  columns : Option SqlError
  columnTypes : Option SqlError
  cols : List Column
  rows : List (Except SqlError (List (Option String)))

/-- The loop `for rows.Next()` of `Query`; `slices` is the named result, returned as
it stands by every bare `return`. -/
def queryLoop {F : Type} (parseFloat : String → Except NumErrorKind F)
    (cols : List Column) :
    List (Except SqlError (List (Option String))) → List (Record F) → Call (List (Record F))
  | [], slices => ⟨slices, []⟩
  | .error err :: _, slices => ⟨slices, [err]⟩
  | .ok vals :: rest, slices =>
    match fillRecord parseFloat cols vals [] with
    | .error err => ⟨slices, [err]⟩
    | .ok tmp => queryLoop parseFloat cols rest (slices ++ [tmp])

/-- `Query`. -/
def Query {F : Type} (parseFloat : String → Except NumErrorKind F)
    (d : QueryDriver) : Call (List (Record F)) :=
  match d.prepare with
  | some err => ⟨[], [err]⟩
  | none =>
    match d.query with
    | some err => ⟨[], [err]⟩
    | none =>
      match d.columns with
      | some err => ⟨[], [err]⟩
      | none =>
        match d.columnTypes with
        | some err => ⟨[], [err]⟩
        | none => queryLoop parseFloat d.cols d.rows []

/-- A `strconv.ParseFloat` for result sets without a float column: it accepts no
text. -/
def parseFloatNone : String → Except NumErrorKind Unit :=
  fun _ => .error .errSyn

/-! ## Record binder -/

/-- A field of a record type: its name, its type and whether it is exported
(what `CanSet` answers for a field of an addressable struct). -/
structure FieldDecl (FT : Type) where
  name : String
  ty : FT
  exported : Bool
  deriving DecidableEq, Repr

/-- A struct type without embedded fields: `t.Name()` and the fields in declaration
order. -/
structure StructType (FT : Type) where
  name : String
  fields : List (FieldDecl FT)
  deriving DecidableEq, Repr

/-- The types `reflect` tells apart in `Get` and `GetAll`, by kind. -/
inductive GoType (FT : Type)
  | struct (st : StructType FT)
  | ptr (elem : GoType FT)
  | slice (elem : GoType FT)
  /-- a type of any other kind -/
  | other (name : String)
  deriving DecidableEq, Repr

/-- What a destination pointer points to; a record is the list of its field values in
declaration order, `V` being the type of field values. -/
inductive Content (V : Type)
  /-- a struct -/
  | record (r : List V)
  /-- a slice of structs, `[]T` -/
  | values (rs : List (List V))
  /-- a slice of struct pointers, `[]*T`; `none` is a nil element -/
  | refs (rs : List (Option (List V)))
  /-- a value of any other type -/
  | other
  deriving DecidableEq, Repr

/-- The argument `get interface{}`: the untyped nil, or a value of type `t`; for a
pointer type `pointee` is what it points to, `none` for a nil pointer. -/
inductive Dest (FT V : Type)
  | untypedNil
  | typed (t : GoType FT) (pointee : Option (Content V))
  deriving DecidableEq, Repr

/-- What the destination pointer points to. -/
def Dest.pointee {FT V : Type} : Dest FT V → Option (Content V)
  | .untypedNil => none
  | .typed _ p => p

/-- How a call of `Get` or `GetAll` ends: it returns, having handed `sink` to
`ProcessSqlError` and leaving `pointee` behind the destination pointer, or it
panics. -/
inductive Outcome (V : Type)
  | returned (sink : List SqlError) (pointee : Option (Content V))
  | panicked (sink : List SqlError)
  deriving DecidableEq, Repr

/-- What the binder uses of `reflect` and `database/sql` on field values: the zero value
of a field type (`reflect.New`) and the conversion `rows.Scan` does from a driver value
of type `DV` into a pointer to a field of a given type. -/
structure ScanLib (DV FT V : Type) where
  zero : FT → V
  convertAssign : DV → FT → Except SqlError V

/-- The driver as `Get` and `GetAll` see it: the errors of `DB.Prepare`, `stmt.Query`
and `rows.Columns()`, the column names, and the driver values of each row for which
`rows.Next()` answers true. -/
structure BindDriver (DV : Type) where
  prepare : Option SqlError
  query : Option SqlError
  columns : Option SqlError
  cols : List String
  rows : List (List DV)

/-- The address of a field, as appended to `scans`: its index and its type. -/
structure FieldAddr (FT : Type) where
  idx : Nat
  ty : FT
  deriving DecidableEq, Repr

/-- The first field named `name` among `fs`, `i` being the index of the head. -/
def findField {FT : Type} : List (FieldDecl FT) → String → Nat → Option (Nat × FieldDecl FT)
  | [], _, _ => none
  | f :: fs, name, i => if f.name = name then some (i, f) else findField fs name (i + 1)

/-- `FieldByName` on a struct without embedded fields: no field for the empty name,
else the first field of that name. -/
def fieldByName {FT : Type} (st : StructType FT) (name : String) : Option (Nat × FieldDecl FT) :=
  if name = "" then none else findField st.fields name 0

/-- The zero value `reflect.New` allocates for a struct type. -/
def zeroRecord {DV FT V : Type} (lib : ScanLib DV FT V) (st : StructType FT) : List V :=
  st.fields.map (fun f => lib.zero f.ty)

/-- The loop `for _, column := range columns` of `Get` and `GetAll`: each column is
converted by `UnderlineToPascal`, looked up by `FieldByName`, tested by `CanSet`, and
its address appended to `scans`. `shown` gives the name the error message shows: the
converted name in `Get`, the column name in `GetAll`. -/
def resolveFields {FT : Type} (toPascal : String → String) (shown : String → String)
    (st : StructType FT) : List String → List (FieldAddr FT) → Except SqlError (List (FieldAddr FT))
  | [], scans => .ok scans
  | column :: rest, scans =>
    match fieldByName st (toPascal column) with
    | none =>
      .error (.msg ("Can not find the corresponding field <" ++ shown column
        ++ "> found in the structure <" ++ st.name ++ ">!"))
    | some (i, f) =>
      if f.exported = false then
        .error (.msg ("Unable to set value, corresponding field <" ++ shown column
          ++ "> was found in structure <" ++ st.name ++ ">!"))
      else resolveFields toPascal shown st rest (scans ++ [⟨i, f.ty⟩])

/-- The assignments of `rows.Scan`, in column order from the column at index `i`, into
the record the addresses point into; the first conversion that fails ends the scan,
and its error is wrapped with the index and the name of the column. -/
def scanCells {DV FT V : Type} (lib : ScanLib DV FT V) (columns : List String) :
    Nat → List (FieldAddr FT) → List DV → List V → Except SqlError (List V)
  | i, a :: as, v :: vs, r =>
    match lib.convertAssign v a.ty with
    | .error e => .error (.scan i (columns.getD i "") e)
    | .ok x => scanCells lib columns (i + 1) as vs (r.set a.idx x)
  | _, _, _, r => .ok r

/-- `rows.Scan(scans...)` on a row of a cursor with the columns `columns`: the number
of destinations must be the number of columns of the row. -/
def rowsScan {DV FT V : Type} (lib : ScanLib DV FT V) (columns : List String)
    (scans : List (FieldAddr FT)) (row : List DV) (r : List V) : Except SqlError (List V) :=
  if scans.length ≠ row.length then
    .error (.driver ("sql: expected " ++ toString row.length
      ++ " destination arguments in Scan, not " ++ toString scans.length))
  else scanCells lib columns 0 scans row r

/-- The error `Get` reports for a destination that is no struct pointer. -/
def errStructPointer : SqlError :=
  .msg "Parameter must be a structure pointer!"

/-- The error `GetAll` reports for a destination of the wrong shape. -/
def errSlicePointer : SqlError :=
  .msg "The parameter to receive data is not a pointer, require *[]struct or *[]*struct!"

/-- The loop `for rows.Next()` of `Get`, with its flag `scanned`, the new instance
`resultValue` and the list `scans`. -/
def getLoop {DV FT V : Type} (lib : ScanLib DV FT V) (toPascal : String → String)
    (st : StructType FT) (columns : List String) :
    List (List DV) → Bool → List V → List (FieldAddr FT) → Except SqlError (List V)
  | [], _, resultValue, _ => .ok resultValue
  | row :: rest, scanned, resultValue, scans =>
    if scanned then .ok resultValue
    else
      match resolveFields toPascal toPascal st columns scans with
      | .error err => .error err
      | .ok scans =>
        match rowsScan lib columns scans row resultValue with
        | .error err => .error err
        | .ok resultValue => getLoop lib toPascal st columns rest true resultValue scans

/-- `Get`. `reflect.TypeOf(nil)` is nil, so `t.Kind()` panics for the untyped nil;
`Set` panics on the zero `Value` that `Elem()` gives for a nil pointer. -/
def Get {DV FT V : Type} (lib : ScanLib DV FT V) (toPascal : String → String)
    (get : Dest FT V) (d : BindDriver DV) : Outcome V :=
  match get with
  | .untypedNil => .panicked []
  | .typed t pointee =>
    match t with
    | .ptr elem =>
      match elem with
      | .struct st =>
        match d.prepare with
        | some err => .returned [err] pointee
        | none =>
          match d.query with
          | some err => .returned [err] pointee
          | none =>
            match d.columns with
            | some err => .returned [err] pointee
            | none =>
              match getLoop lib toPascal st d.cols d.rows false (zeroRecord lib st) [] with
              | .error err => .returned [err] pointee
              | .ok result =>
                match pointee with
                | none => .panicked []
                | some _ => .returned [] (some (.record result))
      | _ => .returned [errStructPointer] pointee
    | _ => .returned [errStructPointer] pointee

/-- How a row loop of `GetAll` ends: past the last row with the slice `result`, at a
bare `return` after `ProcessSqlError(err)`, or in a panic of `reflect.Append`. -/
inductive LoopEnd (V : Type)
  | done (result : Option (Content V))
  | failed (err : SqlError)
  | appendPanic
  deriving DecidableEq, Repr

/-- The loop `for rows.Next()` of the `[]struct` case: every row is scanned into the
one instance `rowResult`, whose value is then appended to `result`. `reflect.Append`
panics unless `result` is a slice. -/
def valueLoop {DV FT V : Type} (lib : ScanLib DV FT V) (columns : List String)
    (scans : List (FieldAddr FT)) :
    List (List DV) → Option (Content V) → List V → LoopEnd V
  | [], result, _ => .done result
  | row :: rest, result, rowResult =>
    match rowsScan lib columns scans row rowResult with
    | .error err => .failed err
    | .ok rowResult =>
      match result with
      | some (.values rs) =>
        valueLoop lib columns scans rest (some (.values (rs ++ [rowResult]))) rowResult
      | _ => .appendPanic

/-- The loop `for rows.Next()` of the `[]*struct` case: every row gets a new instance,
its own `scans`, and a pointer to the instance is appended to `result`. -/
def refLoop {DV FT V : Type} (lib : ScanLib DV FT V) (toPascal : String → String)
    (st : StructType FT) (columns : List String) :
    List (List DV) → Option (Content V) → LoopEnd V
  | [], result => .done result
  | row :: rest, result =>
    match resolveFields toPascal id st columns [] with
    | .error err => .failed err
    | .ok scans =>
      match rowsScan lib columns scans row (zeroRecord lib st) with
      | .error err => .failed err
      | .ok rowResultValue =>
        match result with
        | some (.refs rs) =>
          refLoop lib toPascal st columns rest (some (.refs (rs ++ [some rowResultValue])))
        | _ => .appendPanic

/-- The end of both cases of `GetAll`: `reflect.ValueOf(get).Elem().Set(result)` after
the loop, which panics on the zero `Value` of a nil pointer. -/
def finishAll {V : Type} (pointee : Option (Content V)) : LoopEnd V → Outcome V
  | .failed err => .returned [err] pointee
  | .appendPanic => .panicked []
  | .done result =>
    match pointee with
    | none => .panicked []
    | some _ => .returned [] result

/-- `GetAll`: the statement is prepared and run before the destination is looked
at. -/
def GetAll {DV FT V : Type} (lib : ScanLib DV FT V) (toPascal : String → String)
    (get : Dest FT V) (d : BindDriver DV) : Outcome V :=
  match d.prepare with
  | some err => .returned [err] get.pointee
  | none =>
    match d.query with
    | some err => .returned [err] get.pointee
    | none =>
      match get with
      | .untypedNil => .panicked []
      | .typed t pointee =>
        match t with
        | .ptr (.slice elem) =>
          match elem with
          | .struct st =>
            match d.columns with
            | some err => .returned [err] pointee
            | none =>
              match resolveFields toPascal id st d.cols [] with
              | .error err => .returned [err] pointee
              | .ok scans =>
                finishAll pointee
                  (valueLoop lib d.cols scans d.rows pointee (zeroRecord lib st))
          | .ptr (.struct st) =>
            match d.columns with
            | some err => .returned [err] pointee
            | none => finishAll pointee (refLoop lib toPascal st d.cols d.rows pointee)
          | _ => .returned [errSlicePointer] pointee
        | _ => .returned [errSlicePointer] pointee

/-! ## A concrete driver and naming convention, for evaluating the binder -/

/-- Field types of the example records. -/
inductive FieldType
  | int64
  | bool
  | string
  deriving DecidableEq, Repr

/-- Field values of the example records. -/
inductive FieldVal
  | int64 (n : Int)
  | bool (b : Bool)
  | string (s : String)
  deriving DecidableEq, Repr

/-- Driver values of the example result sets. -/
inductive DriverValue
  | null
  | int64 (n : Int)
  | text (s : String)
  deriving DecidableEq, Repr

/-- The conversions `convertAssign` of `database/sql` does between these driver values
and field types, with the error it returns for each that fails: text is parsed by
`strconv` into an `int64` or `bool` field, 1 and 0 convert to a `bool`, an integer is
written in decimal into a `string`, NULL converts to none of the three. -/
def sqlConvertAssign : DriverValue → FieldType → Except SqlError FieldVal
  | .null, .int64 => .error (.convertingNull "int64")
  | .null, .string => .error (.convertingNull "string")
  | .null, .bool => .error (.notBool "<nil> (<nil>)")
  | .int64 n, .int64 => .ok (.int64 n)
  | .int64 n, .bool =>
    if n = 1 then .ok (.bool true) else if n = 0 then .ok (.bool false)
    else .error (.notBool (toString n))
  | .int64 n, .string => .ok (.string (toString n))
  | .text s, .int64 =>
    match parseInt s with
    | .error e => .error (.converting "string" s "int64" e)
    | .ok n => .ok (.int64 n)
  | .text s, .bool =>
    match parseBool s with
    | .error _ => .error (.notBool s)
    | .ok b => .ok (.bool b)
  | .text s, .string => .ok (.string s)

/-- The example library: Go zero values and `sqlConvertAssign`. -/
def sqlLib : ScanLib DriverValue FieldType FieldVal where
  zero := fun t =>
    match t with
    | .int64 => .int64 0
    | .bool => .bool false
    | .string => .string ""
  convertAssign := sqlConvertAssign

/-- The characters of `UnderlineToPascal`; `up` says that the next letter starts a
word. -/
def pascalChars : List Char → Bool → List Char
  | [], _ => []
  | c :: cs, up =>
    if c = '_' then pascalChars cs true
    else (if up then c.toUpper else c) :: pascalChars cs false

/-- Modelled from the spec: `UnderlineToPascal` is called by `Get` and `GetAll` and
not defined in `database.go`; the spec has it convert a lower-case column name with
separators into the field-name casing, so that `user_id` becomes `UserId`. -/
def UnderlineToPascal (s : String) : String :=
  String.mk (pascalChars s.toList true)

/-- The record type of the example: `UserId int64; IsActive bool`. -/
def userType : StructType FieldType :=
  ⟨"User", [⟨"UserId", .int64, true⟩, ⟨"IsActive", .bool, true⟩]⟩

/-- The result set of the example: columns `user_id`, `is_active`, rows `(1, "true")`
and `(2, "false")`. -/
def userRows : BindDriver DriverValue :=
  ⟨none, none, none, ["user_id", "is_active"],
    [[.int64 1, .text "true"], [.int64 2, .text "false"]]⟩

/-- The result set of the failing example: the second row holds `abc` for the
`int64` field. -/
def brokenRows : BindDriver DriverValue :=
  ⟨none, none, none, ["user_id", "is_active"],
    [[.int64 1, .text "true"], [.text "abc", .text "false"], [.int64 3, .text "true"]]⟩

/-! ## Notions the properties are stated with -/

/-- Whether a row reads well: `rows.Scan` succeeded and every cell coerces under the
scan type of its column. -/
def rowCoerces {F : Type} (parseFloat : String → Except NumErrorKind F) (cols : List Column) :
    Except SqlError (List (Option String)) → Bool
  | .error _ => false
  | .ok vals =>
    (cols.zip vals).all (fun cv =>
      match coerceCell parseFloat cv.1.scanType cv.2 with
      | .ok _ => true
      | .error _ => false)

/-- The decimal text of a `uint64`, as `strconv.FormatUint(n, 10)` writes it. -/
def formatUint (n : Nat) : String :=
  String.mk (Nat.toDigits 10 n)

/-- The decimal text of an `int64`, as `strconv.FormatInt(n, 10)` writes it. -/
def formatInt (n : Int) : String :=
  if n < 0 then String.mk ('-' :: Nat.toDigits 10 n.natAbs)
  else String.mk (Nat.toDigits 10 n.toNat)

/-- The text of a `bool`, as `strconv.FormatBool` writes it. -/
def formatBool (b : Bool) : String :=
  if b then "true" else "false"

/-- Formatting a coerced value back to text, the round trip the spec speaks of:
integers in decimal, booleans as `true` and `false`, a `float64` by the formatter
`formatFloat` (`strconv.FormatFloat`, a parameter like `strconv.ParseFloat`), text as
it is. `database.go` formats nothing; the nil `[]byte` has no text. -/
def formatValue {F : Type} (formatFloat : F → String) : Value F → Option String
  | .int n => some (formatInt n)
  | .int64 n => some (formatInt n)
  | .uint64 n => some (formatUint n)
  | .bool b => some (formatBool b)
  | .string s => some s
  | .float64 x => some (formatFloat x)
  | .nilBytes => none

/-- The result set of the reading example: columns `id` of scan type `int64` and `ok`
of scan type `bool`; the second of three rows holds `abc` for `id`. -/
def sampleQuery : QueryDriver :=
  ⟨none, none, none, none, [⟨"id", "int64"⟩, ⟨"ok", "bool"⟩],
    [.ok [some "1", some "true"], .ok [some "abc", none], .ok [some "3", none]]⟩

/-! ## Theorems: mutation executors -/

/-- C10, as amended: on every outcome of the three driver steps, `Add` and `Exec` return
the value the driver reported when all three succeed, without calling the sink;
when a step fails the sink is called exactly once; the result is 0 when `Prepare`
or `Exec` fails, and the value the driver returned next to the error when
`LastInsertId` or `RowsAffected` fails. -/
theorem add_exec_outcome (d : ExecDriver) :
    (d.prepare = none → d.exec = none → d.lastInsertId.2 = none →
      Add d = ⟨d.lastInsertId.1, []⟩) ∧
    (d.prepare = none → d.exec = none → d.rowsAffected.2 = none →
      Exec d = ⟨d.rowsAffected.1, []⟩) ∧
    (d.prepare ≠ none ∨ d.exec ≠ none ∨ d.lastInsertId.2 ≠ none → (Add d).sink.length = 1) ∧
    (d.prepare ≠ none ∨ d.exec ≠ none ∨ d.rowsAffected.2 ≠ none → (Exec d).sink.length = 1) ∧
    (d.prepare ≠ none ∨ d.exec ≠ none → (Add d).ret = 0 ∧ (Exec d).ret = 0) ∧
    (d.prepare = none → d.exec = none →
      (Add d).ret = d.lastInsertId.1 ∧ (Exec d).ret = d.rowsAffected.1) := by
  obtain ⟨p, e, ⟨i, ie⟩, ⟨r, re⟩⟩ := d
  cases p <;> cases e <;> cases ie <;> cases re <;> simp [Add, Exec]

/-- C10 as stated fails: when `LastInsertId` fails with 7 next to its error `Add`
returns 7, and when `RowsAffected` fails with 2 next to its error `Exec` returns 2;
each calls the sink once. -/
theorem add_exec_metadata_error_value :
    (Add ⟨none, none, (7, some (.driver "no insert id")), (0, none)⟩).sink.length = 1 ∧
    (Add ⟨none, none, (7, some (.driver "no insert id")), (0, none)⟩).ret ≠ 0 ∧
    (Exec ⟨none, none, (0, none), (2, some (.driver "no row count"))⟩).sink.length = 1 ∧
    (Exec ⟨none, none, (0, none), (2, some (.driver "no row count"))⟩).ret ≠ 0 := by
  decide

/-- An instance of C10 as amended: an update affecting 2 rows, and an insert whose
`Exec` step fails. -/
theorem add_exec_outcome_example :
    Exec ⟨none, none, (0, none), (2, none)⟩ = ⟨2, []⟩ ∧
    (Add ⟨none, some (.driver "duplicate key"), (5, none), (0, none)⟩).ret = 0 :=
  ⟨(add_exec_outcome ⟨none, none, (0, none), (2, none)⟩).2.1 rfl rfl rfl,
   ((add_exec_outcome ⟨none, some (.driver "duplicate key"), (5, none), (0, none)⟩).2.2.2.2.1
      (Or.inr (by decide))).1⟩

/-! ## Theorems: destination shape -/

/-- C9, as amended: for every typed destination (nil pointer or not) whose type is not
a pointer to a record, `Get` hands exactly the shape error to the sink and returns
with the destination unchanged; for every typed destination whose type is neither a
pointer to a sequence of records nor a pointer to a sequence of record references,
`GetAll` hands exactly one error to the sink, the shape error when `Prepare` and
`Query` succeeded, and returns with the destination unchanged. -/
theorem shape_violation_reported {DV FT V : Type} (lib : ScanLib DV FT V)
    (toPascal : String → String) (t : GoType FT) (pointee : Option (Content V))
    (d : BindDriver DV) :
    ((∀ st, t ≠ .ptr (.struct st)) →
      Get lib toPascal (.typed t pointee) d = .returned [errStructPointer] pointee) ∧
    ((∀ st, t ≠ .ptr (.slice (.struct st))) → (∀ st, t ≠ .ptr (.slice (.ptr (.struct st)))) →
      ∃ e, GetAll lib toPascal (.typed t pointee) d = .returned [e] pointee ∧
        (d.prepare = none → d.query = none → e = errSlicePointer)) := by
  constructor
  · intro h
    unfold Get
    split
    · rename_i heq; cases heq
    · rename_i t1 p1 heq
      cases heq
      split
      · split
        · rename_i st; exact absurd rfl (h st)
        · rfl
      · rfl
  · intro h1 h2
    unfold GetAll
    cases hp : d.prepare with
    | some err => exact ⟨err, rfl, by intro h; cases h⟩
    | none =>
      cases hq : d.query with
      | some err => exact ⟨err, rfl, by intro _ h; cases h⟩
      | none =>
        refine ⟨errSlicePointer, ?_, fun _ _ => rfl⟩
        simp only
        split
        · split
          · rename_i st; exact absurd rfl (h1 st)
          · rename_i st; exact absurd rfl (h2 st)
          · rfl
        · rfl

/-- C9 as stated fails: `Get` panics on the untyped nil, and on a nil pointer to a
record once the query has answered; `GetAll` panics on both as well. -/
theorem nil_destination_panics :
    Get sqlLib UnderlineToPascal .untypedNil userRows = .panicked [] ∧
    Get sqlLib UnderlineToPascal (.typed (.ptr (.struct userType)) none) userRows
      = .panicked [] ∧
    GetAll sqlLib UnderlineToPascal .untypedNil userRows = .panicked [] ∧
    GetAll sqlLib UnderlineToPascal (.typed (.ptr (.slice (.struct userType))) none) userRows
      = .panicked [] := by
  decide

/-- An instance of C9 as amended: a record passed by value to `Get`, and a pointer to a
record passed to `GetAll`. -/
theorem shape_violation_reported_example :
    Get sqlLib UnderlineToPascal (.typed (.struct userType) none) userRows
      = .returned [errStructPointer] none ∧
    ∃ e, GetAll sqlLib UnderlineToPascal
        (.typed (.ptr (.struct userType)) (some (.record [.int64 0, .bool false]))) userRows
      = .returned [e] (some (.record [.int64 0, .bool false])) ∧
        (userRows.prepare = none → userRows.query = none → e = errSlicePointer) :=
  ⟨(shape_violation_reported sqlLib UnderlineToPascal (.struct userType) none userRows).1
      (by intro st h; cases h),
   (shape_violation_reported sqlLib UnderlineToPascal (.ptr (.struct userType))
      (some (.record [.int64 0, .bool false])) userRows).2
      (by intro st h; cases h) (by intro st h; cases h)⟩

/-! ## Theorems: failures of the binder -/

/-- A column without a field makes the resolution loop fail, whatever the columns
before it resolve to. -/
theorem resolveFields_missing {FT : Type} (toPascal shown : String → String)
    (st : StructType FT) (cols : List String) (scans : List (FieldAddr FT))
    (h : ∃ col ∈ cols, fieldByName st (toPascal col) = none) :
    ∃ e, resolveFields toPascal shown st cols scans = .error e := by
  induction cols generalizing scans with
  | nil => obtain ⟨col, hc, _⟩ := h; cases hc
  | cons c cs ih =>
    unfold resolveFields
    cases hf : fieldByName st (toPascal c) with
    | none => exact ⟨_, rfl⟩
    | some p =>
      obtain ⟨i, f⟩ := p
      simp only
      split
      · exact ⟨_, rfl⟩
      · apply ih
        obtain ⟨col, hc, hn⟩ := h
        rcases List.mem_cons.mp hc with rfl | hmem
        · rw [hf] at hn; cases hn
        · exact ⟨col, hmem, hn⟩

/-- C3, as amended: for every query result with at least one row in which some
column has no matching field on the destination record type after name conversion,
`Get` returns with the destination as it was before the call, having handed exactly
one error to the sink. -/
theorem get_missing_field {DV FT V : Type} (lib : ScanLib DV FT V)
    (toPascal : String → String) (st : StructType FT) (pointee : Option (Content V))
    (d : BindDriver DV) (hrows : d.rows ≠ [])
    (hmiss : ∃ col ∈ d.cols, fieldByName st (toPascal col) = none) :
    ∃ e, Get lib toPascal (.typed (.ptr (.struct st)) pointee) d = .returned [e] pointee := by
  unfold Get
  simp only
  cases hp : d.prepare with
  | some err => exact ⟨err, rfl⟩
  | none =>
    cases hq : d.query with
    | some err => exact ⟨err, rfl⟩
    | none =>
      cases hc : d.columns with
      | some err => exact ⟨err, rfl⟩
      | none =>
        cases hr : d.rows with
        | nil => exact absurd hr hrows
        | cons row rest =>
          obtain ⟨e, he⟩ := resolveFields_missing toPascal toPascal st d.cols [] hmiss
          refine ⟨e, ?_⟩
          simp [getLoop, he]

/-- C3 as stated fails on a result set without rows: the column `no_such_column` has
no field in `User`, yet the sink is not called and the destination `{5, true}` is
overwritten with the zero value. -/
theorem get_missing_field_no_rows :
    Get sqlLib UnderlineToPascal
      (.typed (.ptr (.struct userType)) (some (.record [.int64 5, .bool true])))
      ⟨none, none, none, ["no_such_column"], []⟩
    = .returned [] (some (.record [.int64 0, .bool false])) := by
  decide

/-- An instance of C3 as amended: one row, and a column `no_such_column`. -/
theorem get_missing_field_example :
    ∃ e, Get sqlLib UnderlineToPascal
      (.typed (.ptr (.struct userType)) (some (.record [.int64 5, .bool true])))
      ⟨none, none, none, ["user_id", "no_such_column"], [[.int64 1, .int64 2]]⟩
    = .returned [e] (some (.record [.int64 5, .bool true])) :=
  get_missing_field sqlLib UnderlineToPascal userType _
    ⟨none, none, none, ["user_id", "no_such_column"], [[.int64 1, .int64 2]]⟩
    (by decide) ⟨"no_such_column", by decide, by decide⟩

/-! ## Theorems: field resolution and row scanning -/

/-- A field found by `findField` stands at the index returned and bears the name
asked for. -/
theorem findField_spec {FT : Type} (fs : List (FieldDecl FT)) (name : String) (k i : Nat)
    (f : FieldDecl FT) (h : findField fs name k = some (i, f)) :
    k ≤ i ∧ fs[i - k]? = some f ∧ f.name = name := by
  induction fs generalizing k with
  | nil => simp [findField] at h
  | cons g gs ih =>
    unfold findField at h
    split at h
    · rename_i hg
      simp only [Option.some.injEq, Prod.mk.injEq] at h
      obtain ⟨rfl, rfl⟩ := h
      simp [hg]
    · obtain ⟨h1, h2, h3⟩ := ih (k + 1) h
      refine ⟨by omega, ?_, h3⟩
      have hk : i - k = (i - (k + 1)) + 1 := by omega
      rw [hk, List.getElem?_cons_succ]
      exact h2

/-- A field found by `FieldByName` is the field at the index returned and bears the
name asked for. -/
theorem fieldByName_spec {FT : Type} (st : StructType FT) (name : String) (i : Nat)
    (f : FieldDecl FT) (h : fieldByName st name = some (i, f)) :
    st.fields[i]? = some f ∧ f.name = name := by
  unfold fieldByName at h
  split at h
  · cases h
  · obtain ⟨_, h2, h3⟩ := findField_spec st.fields name 0 i f h
    exact ⟨by simpa using h2, h3⟩

/-- When every column has an exported field, the resolution loop appends one address
for each column, in column order: the index and type of the field of that name. -/
theorem resolveFields_ok {FT : Type} (toPascal shown : String → String)
    (st : StructType FT) (cols : List String) (scans : List (FieldAddr FT))
    (h : ∀ col ∈ cols, ∃ i f, fieldByName st (toPascal col) = some (i, f) ∧ f.exported = true) :
    ∃ new, resolveFields toPascal shown st cols scans = .ok (scans ++ new) ∧
      new.length = cols.length ∧
      ∀ (k : Nat) (col : String), cols[k]? = some col →
        ∃ i f, fieldByName st (toPascal col) = some (i, f) ∧
          new[k]? = some (FieldAddr.mk i f.ty) := by
  induction cols generalizing scans with
  | nil => exact ⟨[], by simp [resolveFields], rfl, by simp⟩
  | cons c cs ih =>
    obtain ⟨i, f, hf, hexp⟩ := h c (List.mem_cons_self _ _)
    obtain ⟨new, h1, h2, h3⟩ := ih (scans ++ [⟨i, f.ty⟩])
      (fun col hc => h col (List.mem_cons_of_mem _ hc))
    refine ⟨⟨i, f.ty⟩ :: new, ?_, by simp [h2], ?_⟩
    · unfold resolveFields
      simp only [hf, hexp, Bool.true_eq_false, if_false]
      rw [h1]
      simp
    · intro k col hk
      cases k with
      | zero =>
        simp only [List.getElem?_cons_zero, Option.some.injEq] at hk
        subst hk
        exact ⟨i, f, hf, by simp⟩
      | succ k =>
        simp only [List.getElem?_cons_succ] at hk ⊢
        exact h3 k col hk

/-- A scan whose cells all convert succeeds: the field of each address holds the
converted cell of its column, every other field and the length are kept. The
addresses point into the record and no two of them at the same field. -/
theorem scanCells_spec {DV FT V : Type} (lib : ScanLib DV FT V) (columns : List String)
    (i0 : Nat) (scans : List (FieldAddr FT)) (row : List DV) (r : List V)
    (hlen : scans.length = row.length)
    (hidx : ∀ a ∈ scans, a.idx < r.length)
    (hinj : ∀ (k k1 : Nat) (a a1 : FieldAddr FT),
      scans[k]? = some a → scans[k1]? = some a1 → a.idx = a1.idx → k = k1)
    (hconv : ∀ (k : Nat) (a : FieldAddr FT) (cell : DV),
      scans[k]? = some a → row[k]? = some cell → ∃ v, lib.convertAssign cell a.ty = .ok v) :
    ∃ out, scanCells lib columns i0 scans row r = .ok out ∧ out.length = r.length ∧
      (∀ (k : Nat) (a : FieldAddr FT) (cell : DV), scans[k]? = some a → row[k]? = some cell →
        ∃ v, lib.convertAssign cell a.ty = .ok v ∧ out[a.idx]? = some v) ∧
      (∀ j, (∀ a ∈ scans, a.idx ≠ j) → out[j]? = r[j]?) := by
  induction scans generalizing row r i0 with
  | nil =>
    refine ⟨r, ?_, rfl, ?_, fun _ _ => rfl⟩
    · cases row <;> simp [scanCells]
    · intro k a cell hk; simp at hk
  | cons a as ih =>
    cases row with
    | nil => simp at hlen
    | cons c cs =>
      obtain ⟨x, hx⟩ := hconv 0 a c (by simp) (by simp)
      have hfresh : ∀ a1 ∈ as, a1.idx ≠ a.idx := by
        intro a1 ha1 heq
        obtain ⟨k1, hk1, hget⟩ := List.getElem_of_mem ha1
        have := hinj (k1 + 1) 0 a1 a (by simp [List.getElem?_eq_getElem hk1, hget]) (by simp) heq
        omega
      obtain ⟨out, h1, h2, h3, h4⟩ := ih (i0 + 1) cs (r.set a.idx x)
        (by simpa using hlen)
        (fun a1 ha1 => by
          rw [List.length_set]; exact hidx a1 (List.mem_cons_of_mem _ ha1))
        (fun k k1 b b1 hb hb1 heq => by
          have := hinj (k + 1) (k1 + 1) b b1 (by simpa using hb) (by simpa using hb1) heq
          omega)
        (fun k b cell hb hcell => hconv (k + 1) b cell (by simpa using hb) (by simpa using hcell))
      refine ⟨out, ?_, ?_, ?_, ?_⟩
      · unfold scanCells
        simp only [hx]
        exact h1
      · rw [h2, List.length_set]
      · intro k b cell hb hcell
        cases k with
        | zero =>
          simp only [List.getElem?_cons_zero, Option.some.injEq] at hb hcell
          subst hb; subst hcell
          refine ⟨x, hx, ?_⟩
          rw [h4 a.idx hfresh]
          exact List.getElem?_set_self (hidx a (List.mem_cons_self _ _))
        | succ k =>
          exact h3 k b cell (by simpa using hb) (by simpa using hcell)
      · intro j hj
        rw [h4 j (fun a1 ha1 => hj a1 (List.mem_cons_of_mem _ ha1))]
        exact List.getElem?_set_ne (hj a (List.mem_cons_self _ _))

/-- The addresses resolved for columns whose converted names are pairwise distinct
point into a record of the struct type, and no two of them at the same field. -/
theorem resolved_addrs {FT : Type} (toPascal : String → String) (st : StructType FT)
    (cols : List String) (new : List (FieldAddr FT))
    (hnodup : (cols.map toPascal).Nodup)
    (hlen : new.length = cols.length)
    (hnew : ∀ (k : Nat) (col : String), cols[k]? = some col →
      ∃ i f, fieldByName st (toPascal col) = some (i, f) ∧
        new[k]? = some (FieldAddr.mk i f.ty)) :
    (∀ a ∈ new, a.idx < st.fields.length) ∧
    (∀ (k k1 : Nat) (a a1 : FieldAddr FT),
      new[k]? = some a → new[k1]? = some a1 → a.idx = a1.idx → k = k1) := by
  have key : ∀ (k : Nat) (a : FieldAddr FT), new[k]? = some a → ∃ (hk : k < cols.length) (f : FieldDecl FT),
      fieldByName st (toPascal cols[k]) = some (a.idx, f) := by
    intro k a hk
    obtain ⟨hlt, _⟩ := List.getElem?_eq_some.mp hk
    have hk2 : k < cols.length := by omega
    obtain ⟨i, f, hf, hn⟩ := hnew k cols[k] (List.getElem?_eq_getElem hk2)
    rw [hk] at hn
    simp only [Option.some.injEq] at hn
    subst hn
    exact ⟨hk2, f, hf⟩
  constructor
  · intro a ha
    obtain ⟨k, hk, hget⟩ := List.getElem_of_mem ha
    obtain ⟨_, f, hf⟩ := key k a (by rw [List.getElem?_eq_getElem hk, hget])
    obtain ⟨h1, _⟩ := fieldByName_spec st _ _ _ hf
    exact (List.getElem?_eq_some.mp h1).1
  · intro k k1 a a1 hk hk1 heq
    obtain ⟨hlt, f, hf⟩ := key k a hk
    obtain ⟨hlt1, f1, hf1⟩ := key k1 a1 hk1
    obtain ⟨h1, h2⟩ := fieldByName_spec st _ _ _ hf
    obtain ⟨h3, h4⟩ := fieldByName_spec st _ _ _ hf1
    rw [heq, h3] at h1
    simp only [Option.some.injEq] at h1
    subst h1
    have hl : k < (cols.map toPascal).length := by simpa using hlt
    have hl1 : k1 < (cols.map toPascal).length := by simpa using hlt1
    have : (cols.map toPascal)[k] = (cols.map toPascal)[k1] := by
      simp only [List.getElem_map]
      rw [← h2, ← h4]
    exact (hnodup.getElem_inj_iff).mp this


/-- One row bound through resolved addresses: when the converted column names are
pairwise distinct and every cell converts into the type of its field, `rows.Scan`
succeeds on any record `r0` of the struct type; the field of each column then holds
the converted cell and every other field is as in `r0`. -/
theorem rowsScan_bound {DV FT V : Type} (lib : ScanLib DV FT V) (toPascal : String → String)
    (columns : List String)
    (st : StructType FT) (cols : List String) (new : List (FieldAddr FT))
    (row : List DV) (r0 : List V)
    (hnodup : (cols.map toPascal).Nodup)
    (hlen : new.length = cols.length)
    (hnew : ∀ (k : Nat) (col : String), cols[k]? = some col →
      ∃ i f, fieldByName st (toPascal col) = some (i, f) ∧
        new[k]? = some (FieldAddr.mk i f.ty))
    (hrow : row.length = cols.length)
    (hr0 : r0.length = st.fields.length)
    (hconv : ∀ (k : Nat) (col : String) (cell : DV) (i : Nat) (f : FieldDecl FT),
      cols[k]? = some col → row[k]? = some cell →
      fieldByName st (toPascal col) = some (i, f) → ∃ v, lib.convertAssign cell f.ty = .ok v) :
    ∃ out, rowsScan lib columns new row r0 = .ok out ∧ out.length = st.fields.length ∧
      (∀ (k : Nat) (col : String) (cell : DV) (i : Nat) (f : FieldDecl FT),
        cols[k]? = some col → row[k]? = some cell →
        fieldByName st (toPascal col) = some (i, f) →
        ∃ v, lib.convertAssign cell f.ty = .ok v ∧ out[i]? = some v) ∧
      (∀ j : Nat, (∀ col ∈ cols, ∀ f, fieldByName st (toPascal col) ≠ some (j, f)) →
        out[j]? = r0[j]?) := by
  obtain ⟨hidx, hinj⟩ := resolved_addrs toPascal st cols new hnodup hlen hnew
  have hcol : ∀ (k : Nat) (a : FieldAddr FT), new[k]? = some a →
      ∃ col f, cols[k]? = some col ∧ fieldByName st (toPascal col) = some (a.idx, f)
        ∧ a.ty = f.ty := by
    intro k a hk
    obtain ⟨hlt, _⟩ := List.getElem?_eq_some.mp hk
    have hk2 : k < cols.length := by omega
    obtain ⟨i, f, hf, hn⟩ := hnew k cols[k] (List.getElem?_eq_getElem hk2)
    rw [hk] at hn
    simp only [Option.some.injEq] at hn
    subst hn
    exact ⟨cols[k], f, List.getElem?_eq_getElem hk2, hf, rfl⟩
  obtain ⟨out, h1, h2, h3, h4⟩ := scanCells_spec lib columns 0 new row r0 (by omega)
    (fun a ha => by rw [hr0]; exact hidx a ha) hinj
    (fun k a cell hk hcell => by
      obtain ⟨col, f, hc, hf, hty⟩ := hcol k a hk
      rw [hty]
      exact hconv k col cell a.idx f hc hcell hf)
  refine ⟨out, ?_, by rw [h2, hr0], ?_, ?_⟩
  · unfold rowsScan
    rw [if_neg (by omega)]
    exact h1
  · intro k col cell i f hc hcell hf
    obtain ⟨i1, f1, hf1, hn⟩ := hnew k col hc
    rw [hf] at hf1
    simp only [Option.some.injEq, Prod.mk.injEq] at hf1
    obtain ⟨rfl, rfl⟩ := hf1
    exact h3 k _ cell hn hcell
  · intro j hj
    apply h4
    intro a ha heq
    obtain ⟨k, hk, hget⟩ := List.getElem_of_mem ha
    obtain ⟨col, f, hc, hf, _⟩ := hcol k a (by rw [List.getElem?_eq_getElem hk, hget])
    exact hj col (List.getElem?_mem hc) f (heq ▸ hf)

/-! ## Theorems: `Get` -/

/-- C2, as amended: when the driver steps succeed and the destination points to a
record, (1) on a result set without rows `Get` overwrites the destination with the zero
value of the record type, and (2) on a result set with at least one row, whose columns
all have an exported field of pairwise distinct converted names and whose first row
converts cell by cell, `Get` leaves in the destination the record in which the field of
every column holds the converted cell of the first row and every other field is zero,
whatever the later rows; the sink is not called. -/
theorem get_first_row {DV FT V : Type} (lib : ScanLib DV FT V) (toPascal : String → String)
    (st : StructType FT) (prior : Content V) (d : BindDriver DV)
    (hp : d.prepare = none) (hq : d.query = none) (hc : d.columns = none) :
    (d.rows = [] →
      Get lib toPascal (.typed (.ptr (.struct st)) (some prior)) d
        = .returned [] (some (.record (zeroRecord lib st)))) ∧
    (∀ row rest, d.rows = row :: rest →
      (∀ col ∈ d.cols, ∃ i f, fieldByName st (toPascal col) = some (i, f) ∧ f.exported = true) →
      (d.cols.map toPascal).Nodup →
      row.length = d.cols.length →
      (∀ (k : Nat) (col : String) (cell : DV) (i : Nat) (f : FieldDecl FT),
        d.cols[k]? = some col → row[k]? = some cell →
        fieldByName st (toPascal col) = some (i, f) →
        ∃ v, lib.convertAssign cell f.ty = .ok v) →
      ∃ r, Get lib toPascal (.typed (.ptr (.struct st)) (some prior)) d
          = .returned [] (some (.record r)) ∧
        r.length = st.fields.length ∧
        (∀ (k : Nat) (col : String) (cell : DV) (i : Nat) (f : FieldDecl FT),
          d.cols[k]? = some col → row[k]? = some cell →
          fieldByName st (toPascal col) = some (i, f) →
          ∃ v, lib.convertAssign cell f.ty = .ok v ∧ r[i]? = some v) ∧
        (∀ j : Nat, (∀ col ∈ d.cols, ∀ f, fieldByName st (toPascal col) ≠ some (j, f)) →
          r[j]? = (zeroRecord lib st)[j]?)) := by
  constructor
  · intro hrows
    simp [Get, hp, hq, hc, hrows, getLoop]
  · intro row rest hrows hmatch hnodup hlen hconv
    obtain ⟨new, h1, h2, h3⟩ := resolveFields_ok toPascal toPascal st d.cols [] hmatch
    obtain ⟨out, h4, h5, h6, h7⟩ := rowsScan_bound lib toPascal d.cols st d.cols new row
      (zeroRecord lib st) hnodup h2 h3 hlen (by simp [zeroRecord]) hconv
    refine ⟨out, ?_, h5, h6, h7⟩
    simp only [List.nil_append] at h1
    cases rest <;> simp [Get, hp, hq, hc, hrows, getLoop, h1, h4]

/-- C2 as stated fails on a result set without rows: the destination `{5, true}` is
not left as it was, it is overwritten with the zero value `{0, false}`. -/
theorem get_no_rows_overwrites :
    Get sqlLib UnderlineToPascal
      (.typed (.ptr (.struct userType)) (some (.record [.int64 5, .bool true])))
      ⟨none, none, none, ["user_id", "is_active"], []⟩
      = .returned [] (some (.record [.int64 0, .bool false])) ∧
    (some (Content.record [FieldVal.int64 0, FieldVal.bool false]))
      ≠ some (.record [.int64 5, .bool true]) := by
  decide


/-- The two columns of `userRows` resolve to the two fields of `User`. -/
theorem userType_fields :
    fieldByName userType (UnderlineToPascal "user_id") = some (0, ⟨"UserId", .int64, true⟩) ∧
    fieldByName userType (UnderlineToPascal "is_active")
      = some (1, ⟨"IsActive", .bool, true⟩) := by
  decide

/-- Every column of `userRows` has an exported field in `User`. -/
theorem userRows_match :
    ∀ col ∈ userRows.cols, ∃ i f,
      fieldByName userType (UnderlineToPascal col) = some (i, f) ∧ f.exported = true := by
  intro col hcol
  simp only [userRows, List.mem_cons, List.mem_singleton, List.not_mem_nil, or_false] at hcol
  rcases hcol with rfl | rfl
  · exact ⟨0, _, userType_fields.1, rfl⟩
  · exact ⟨1, _, userType_fields.2, rfl⟩

/-- Both cells of a row made of an integer and of `true` or `false` convert into the
fields of `User`. -/
theorem userRows_convert (n : Int) (s : String) (hs : s = "true" ∨ s = "false") :
    ∀ (k : Nat) (col : String) (cell : DriverValue) (i : Nat) (f : FieldDecl FieldType),
      userRows.cols[k]? = some col → [DriverValue.int64 n, .text s][k]? = some cell →
      fieldByName userType (UnderlineToPascal col) = some (i, f) →
      ∃ v, sqlLib.convertAssign cell f.ty = .ok v := by
  intro k col cell i f hk hcell hf
  rcases k with _ | _ | k
  · simp only [userRows, List.getElem?_cons_zero, Option.some.injEq] at hk hcell
    subst hk; subst hcell
    rw [userType_fields.1] at hf
    simp only [Option.some.injEq, Prod.mk.injEq] at hf
    obtain ⟨rfl, rfl⟩ := hf
    exact ⟨.int64 n, rfl⟩
  · simp only [userRows, List.getElem?_cons_succ, List.getElem?_cons_zero,
      Option.some.injEq] at hk hcell
    subst hk; subst hcell
    rw [userType_fields.2] at hf
    simp only [Option.some.injEq, Prod.mk.injEq] at hf
    obtain ⟨rfl, rfl⟩ := hf
    rcases hs with rfl | rfl
    · exact ⟨.bool true, by decide⟩
    · exact ⟨.bool false, by decide⟩
  · simp [userRows] at hk

/-- An instance of C2 as amended: `Get` on the example result set leaves `{1, true}`,
the first row, in a destination that held `{9, false}`. -/
theorem get_first_row_example :
    ∃ r, Get sqlLib UnderlineToPascal
        (.typed (.ptr (.struct userType)) (some (.record [.int64 9, .bool false]))) userRows
        = .returned [] (some (.record r)) ∧
      r.length = 2 ∧ r[0]? = some (.int64 1) ∧ r[1]? = some (.bool true) := by
  obtain ⟨r, h1, h2, h3, _⟩ :=
    (get_first_row sqlLib UnderlineToPascal userType (.record [.int64 9, .bool false])
      userRows rfl rfl rfl).2 [.int64 1, .text "true"] [[.int64 2, .text "false"]] rfl
      userRows_match (by decide) rfl (userRows_convert 1 "true" (Or.inl rfl))
  refine ⟨r, h1, h2, ?_, ?_⟩
  · obtain ⟨v, hv, hr⟩ := h3 0 "user_id" (.int64 1) 0 _ rfl rfl userType_fields.1
    cases hv
    exact hr
  · obtain ⟨v, hv, hr⟩ := h3 1 "is_active" (.text "true") 1 _ rfl rfl userType_fields.2
    have : v = FieldVal.bool true := by
      have h : sqlLib.convertAssign (.text "true") FieldType.bool = .ok (.bool true) := by decide
      rw [h] at hv
      cases hv
      rfl
    rw [this] at hr
    exact hr


/-! ## Theorems: `GetAll` -/

/-- The by-value row loop: when every row converts cell by cell, the loop appends one
element for each row, in row order; the fields of the columns hold the converted cells
of that row and every other field is as in the shared instance at the start of the
loop, although all rows were scanned into that one instance. -/
theorem valueLoop_bound {DV FT V : Type} (lib : ScanLib DV FT V) (toPascal : String → String)
    (columns : List String)
    (st : StructType FT) (cols : List String) (new : List (FieldAddr FT))
    (hnodup : (cols.map toPascal).Nodup)
    (hlen : new.length = cols.length)
    (hnew : ∀ (k : Nat) (col : String), cols[k]? = some col →
      ∃ i f, fieldByName st (toPascal col) = some (i, f) ∧
        new[k]? = some (FieldAddr.mk i f.ty))
    (rows : List (List DV)) (acc : List (List V)) (proto : List V)
    (hproto : proto.length = st.fields.length)
    (hrows : ∀ row ∈ rows, row.length = cols.length ∧
      ∀ (k : Nat) (col : String) (cell : DV) (i : Nat) (f : FieldDecl FT),
        cols[k]? = some col → row[k]? = some cell →
        fieldByName st (toPascal col) = some (i, f) →
        ∃ v, lib.convertAssign cell f.ty = .ok v) :
    ∃ elems, valueLoop lib columns new rows (some (.values acc)) proto
        = .done (some (.values (acc ++ elems))) ∧
      elems.length = rows.length ∧
      ∀ (n : Nat) (row : List DV), rows[n]? = some row →
        ∃ r, elems[n]? = some r ∧ r.length = st.fields.length ∧
          (∀ (k : Nat) (col : String) (cell : DV) (i : Nat) (f : FieldDecl FT),
            cols[k]? = some col → row[k]? = some cell →
            fieldByName st (toPascal col) = some (i, f) →
            ∃ v, lib.convertAssign cell f.ty = .ok v ∧ r[i]? = some v) ∧
          (∀ j : Nat, (∀ col ∈ cols, ∀ f, fieldByName st (toPascal col) ≠ some (j, f)) →
            r[j]? = proto[j]?) := by
  induction rows generalizing acc proto with
  | nil => exact ⟨[], by simp [valueLoop], rfl, by simp⟩
  | cons row rest ih =>
    obtain ⟨hl, hcv⟩ := hrows row (List.mem_cons_self _ _)
    obtain ⟨out, h1, h2, h3, h4⟩ := rowsScan_bound lib toPascal columns st cols new row proto
      hnodup hlen hnew hl hproto hcv
    obtain ⟨elems, e1, e2, e3⟩ := ih (acc ++ [out]) out h2
      (fun r hr => hrows r (List.mem_cons_of_mem _ hr))
    refine ⟨out :: elems, ?_, by simp [e2], ?_⟩
    · unfold valueLoop
      simp only [h1]
      rw [e1]
      simp
    · intro n r hn
      cases n with
      | zero =>
        simp only [List.getElem?_cons_zero, Option.some.injEq] at hn
        subst hn
        exact ⟨out, by simp, h2, h3, h4⟩
      | succ n =>
        simp only [List.getElem?_cons_succ] at hn
        obtain ⟨x, x1, x2, x3, x4⟩ := e3 n r hn
        refine ⟨x, by simpa using x1, x2, x3, ?_⟩
        intro j hj
        rw [x4 j hj, h4 j hj]

/-- C1, as amended: for every record type in which every column has an exported field
of pairwise distinct converted names, and every result set of n rows that convert cell
by cell, `GetAll` into a by-value collection destination leaves in it the elements it
held before the call followed by n elements, so an n-element sequence when it was
empty; the i-th of the n holds in the field of every column the converted cell of
the i-th row and zero in every other field; and overwriting element 0 afterwards
changes no other element. The sink is not called. -/
theorem getAll_by_value {DV FT V : Type} (lib : ScanLib DV FT V) (toPascal : String → String)
    (st : StructType FT) (prior : List (List V)) (d : BindDriver DV)
    (hp : d.prepare = none) (hq : d.query = none) (hc : d.columns = none)
    (hmatch : ∀ col ∈ d.cols, ∃ i f,
      fieldByName st (toPascal col) = some (i, f) ∧ f.exported = true)
    (hnodup : (d.cols.map toPascal).Nodup)
    (hrows : ∀ row ∈ d.rows, row.length = d.cols.length ∧
      ∀ (k : Nat) (col : String) (cell : DV) (i : Nat) (f : FieldDecl FT),
        d.cols[k]? = some col → row[k]? = some cell →
        fieldByName st (toPascal col) = some (i, f) →
        ∃ v, lib.convertAssign cell f.ty = .ok v) :
    ∃ elems, GetAll lib toPascal (.typed (.ptr (.slice (.struct st))) (some (.values prior))) d
        = .returned [] (some (.values (prior ++ elems))) ∧
      elems.length = d.rows.length ∧
      (∀ (n : Nat) (row : List DV), d.rows[n]? = some row →
        ∃ r, elems[n]? = some r ∧ r.length = st.fields.length ∧
          (∀ (k : Nat) (col : String) (cell : DV) (i : Nat) (f : FieldDecl FT),
            d.cols[k]? = some col → row[k]? = some cell →
            fieldByName st (toPascal col) = some (i, f) →
            ∃ v, lib.convertAssign cell f.ty = .ok v ∧ r[i]? = some v) ∧
          (∀ j : Nat, (∀ col ∈ d.cols, ∀ f, fieldByName st (toPascal col) ≠ some (j, f)) →
            r[j]? = (zeroRecord lib st)[j]?)) ∧
      (∀ (x : List V) (j : Nat), j ≠ 0 →
        ((prior ++ elems).set 0 x)[j]? = (prior ++ elems)[j]?) := by
  obtain ⟨new, h1, h2, h3⟩ := resolveFields_ok toPascal id st d.cols [] hmatch
  obtain ⟨elems, e1, e2, e3⟩ := valueLoop_bound lib toPascal d.cols st d.cols new hnodup h2 h3
    d.rows prior (zeroRecord lib st) (by simp [zeroRecord]) hrows
  simp only [List.nil_append] at h1
  refine ⟨elems, ?_, e2, e3, ?_⟩
  · simp [GetAll, hp, hq, hc, h1, e1, finishAll]
  · intro x j hj
    exact List.getElem?_set_ne (Ne.symm hj)

/-- C1 as stated fails: on a destination that holds one element before the call, the
two rows of the example leave a 3-element sequence, whose element 0 is the old
element and not the first row. -/
theorem getAll_appends_to_prior :
    GetAll sqlLib UnderlineToPascal
      (.typed (.ptr (.slice (.struct userType))) (some (.values [[.int64 9, .bool true]])))
      userRows
    = .returned [] (some (.values
        [[.int64 9, .bool true], [.int64 1, .bool true], [.int64 2, .bool false]])) := by
  decide

/-- An instance of C1 as amended, the example of the spec: columns `user_id`,
`is_active` with rows `(1, "true")`, `(2, "false")` bound into an empty `[]User`. -/
theorem getAll_by_value_example :
    (∃ elems, GetAll sqlLib UnderlineToPascal
        (.typed (.ptr (.slice (.struct userType))) (some (.values []))) userRows
        = .returned [] (some (.values ([] ++ elems))) ∧ elems.length = userRows.rows.length) ∧
    GetAll sqlLib UnderlineToPascal
        (.typed (.ptr (.slice (.struct userType))) (some (.values []))) userRows
      = .returned [] (some (.values [[.int64 1, .bool true], [.int64 2, .bool false]])) := by
  refine ⟨?_, by decide⟩
  obtain ⟨elems, h1, h2, _⟩ := getAll_by_value sqlLib UnderlineToPascal userType [] userRows
    rfl rfl rfl userRows_match (by decide)
    (by
      intro row hrow
      simp only [userRows, List.mem_cons, List.mem_singleton, List.not_mem_nil,
        or_false] at hrow
      rcases hrow with rfl | rfl
      · exact ⟨rfl, userRows_convert 1 "true" (Or.inl rfl)⟩
      · exact ⟨rfl, userRows_convert 2 "false" (Or.inr rfl)⟩)
  exact ⟨elems, h1, h2⟩


/-! ## Theorems: the generic record -/

/-- Reading the key just written gives the value written. -/
theorem Record.get_set_self {F : Type} (m : Record F) (k : String) (v : Value F) :
    (m.set k v).get k = some v := by
  induction m with
  | nil => simp [Record.set, Record.get]
  | cons p rest ih =>
    obtain ⟨k1, v1⟩ := p
    unfold Record.set
    split
    · simp [Record.get]
    · rename_i hne
      simp [Record.get, hne, ih]

/-- Writing a key leaves every other key as it was. -/
theorem Record.get_set_ne {F : Type} (m : Record F) (k k1 : String) (v : Value F)
    (h : k ≠ k1) : (m.set k v).get k1 = m.get k1 := by
  induction m with
  | nil => simp [Record.set, Record.get, h]
  | cons p rest ih =>
    obtain ⟨k2, v2⟩ := p
    unfold Record.set
    split
    · rename_i heq
      subst heq
      simp [Record.get, h]
    · simp only [Record.get, ih]

/-- The inner loop succeeds exactly when every cell of the row coerces. -/
theorem fillRecord_ok_iff {F : Type} (parseFloat : String → Except NumErrorKind F)
    (cols : List Column) (vals : List (Option String)) (tmp : Record F) :
    rowCoerces parseFloat cols (.ok vals) = true ↔
      ∃ out, fillRecord parseFloat cols vals tmp = .ok out := by
  induction cols generalizing vals tmp with
  | nil => simp [rowCoerces, fillRecord]
  | cons c cs ih =>
    cases vals with
    | nil => simp [rowCoerces, fillRecord]
    | cons v vs =>
      have ih1 := ih vs
      simp only [rowCoerces] at ih1 ⊢
      unfold fillRecord
      cases hcv : coerceCell parseFloat c.scanType v with
      | error e => simp [hcv]
      | ok x =>
        simp only [List.zip_cons_cons, List.all_cons, hcv, Bool.true_and]
        exact ih1 (tmp.set c.name x)

/-- A record filled without error maps the name of every column to the coerced value
of the cell of that column, when the column names are pairwise distinct; keys that
name no column are as they were. -/
theorem fillRecord_get {F : Type} (parseFloat : String → Except NumErrorKind F)
    (cols : List Column) (vals : List (Option String)) (tmp out : Record F)
    (hnodup : (cols.map Column.name).Nodup)
    (h : fillRecord parseFloat cols vals tmp = .ok out) :
    (∀ (k : Nat) (c : Column) (cell : Option String),
      cols[k]? = some c → vals[k]? = some cell →
      ∃ v, coerceCell parseFloat c.scanType cell = .ok v ∧ out.get c.name = some v) ∧
    (∀ key : String, (∀ c ∈ cols, c.name ≠ key) → out.get key = tmp.get key) := by
  induction cols generalizing vals tmp with
  | nil =>
    simp only [fillRecord, Except.ok.injEq] at h
    subst h
    exact ⟨by simp, fun _ _ => rfl⟩
  | cons c cs ih =>
    cases vals with
    | nil =>
      simp only [fillRecord, Except.ok.injEq] at h
      subst h
      exact ⟨by simp, fun _ _ => rfl⟩
    | cons v vs =>
      unfold fillRecord at h
      cases hcv : coerceCell parseFloat c.scanType v with
      | error e => simp [hcv] at h
      | ok x =>
        simp only [hcv] at h
        simp only [List.map_cons, List.nodup_cons, List.mem_map, not_exists, not_and] at hnodup
        obtain ⟨h1, h2⟩ := ih vs (tmp.set c.name x) hnodup.2 h
        constructor
        · intro k c1 cell hk hcell
          cases k with
          | zero =>
            simp only [List.getElem?_cons_zero, Option.some.injEq] at hk hcell
            subst hk; subst hcell
            refine ⟨x, hcv, ?_⟩
            rw [h2 c.name (fun c2 hc2 => hnodup.1 c2 hc2)]
            exact Record.get_set_self tmp c.name x
          | succ k =>
            exact h1 k c1 cell (by simpa using hk) (by simpa using hcell)
        · intro key hkey
          rw [h2 key (fun c2 hc2 => hkey c2 (List.mem_cons_of_mem _ hc2))]
          exact Record.get_set_ne tmp c.name key x (hkey c (List.mem_cons_self _ _))

/-- The row loop of `Query` appends one record for each row of the longest run of
leading rows that read well, each the filled record of its row, and calls the sink
once unless every row reads well. -/
theorem queryLoop_spec {F : Type} (parseFloat : String → Except NumErrorKind F)
    (cols : List Column) (rows : List (Except SqlError (List (Option String))))
    (acc : List (Record F)) :
    ∃ recs, (queryLoop parseFloat cols rows acc).ret = acc ++ recs ∧
      recs.length = (rows.takeWhile (rowCoerces parseFloat cols)).length ∧
      (∀ (n : Nat) (rec : Record F), recs[n]? = some rec →
        ∃ vals, rows[n]? = some (.ok vals) ∧ fillRecord parseFloat cols vals [] = .ok rec) ∧
      (queryLoop parseFloat cols rows acc).sink.length
        = if (rows.takeWhile (rowCoerces parseFloat cols)).length = rows.length then 0 else 1 := by
  induction rows generalizing acc with
  | nil => exact ⟨[], by simp [queryLoop], rfl, by simp, by simp [queryLoop]⟩
  | cons row rest ih =>
    cases row with
    | error e =>
      exact ⟨[], by simp [queryLoop], by simp [rowCoerces], by simp,
        by simp [queryLoop, rowCoerces]⟩
    | ok vals =>
      cases hf : fillRecord parseFloat cols vals ([] : Record F) with
      | error e =>
        have hbad : rowCoerces parseFloat cols (.ok vals) = false := by
          cases hg : rowCoerces parseFloat cols (.ok vals) with
          | false => rfl
          | true =>
            obtain ⟨out, hout⟩ := (fillRecord_ok_iff parseFloat cols vals []).mp hg
            rw [hf] at hout
            cases hout
        exact ⟨[], by simp [queryLoop, hf], by simp [hbad], by simp,
          by simp [queryLoop, hf, hbad]⟩
      | ok tmp =>
        have hgood : rowCoerces parseFloat cols (.ok vals) = true :=
          (fillRecord_ok_iff parseFloat cols vals []).mpr ⟨tmp, hf⟩
        obtain ⟨recs, h1, h2, h3, h4⟩ := ih (acc ++ [tmp])
        refine ⟨tmp :: recs, ?_, ?_, ?_, ?_⟩
        · simp [queryLoop, hf, h1]
        · simp [hgood, h2]
        · intro n rec hn
          cases n with
          | zero =>
            simp only [List.getElem?_cons_zero, Option.some.injEq] at hn
            subst hn
            exact ⟨vals, by simp, hf⟩
          | succ n =>
            simp only [List.getElem?_cons_succ] at hn ⊢
            exact h3 n rec hn
        · simp only [queryLoop, hf, h4, List.takeWhile_cons, hgood, if_true,
            List.length_cons, Nat.add_right_cancel_iff]


/-- A record filled without error has an entry for the name of every column that has
a cell, and keeps the entries it had. -/
theorem fillRecord_complete {F : Type} (parseFloat : String → Except NumErrorKind F)
    (cols : List Column) (vals : List (Option String)) (tmp out : Record F)
    (h : fillRecord parseFloat cols vals tmp = .ok out) :
    (∀ (k : Nat) (c : Column) (cell : Option String),
      cols[k]? = some c → vals[k]? = some cell → out.get c.name ≠ none) ∧
    (∀ key : String, tmp.get key ≠ none → out.get key ≠ none) := by
  induction cols generalizing vals tmp with
  | nil =>
    simp only [fillRecord, Except.ok.injEq] at h
    subst h
    exact ⟨by simp, fun _ hk => hk⟩
  | cons c cs ih =>
    cases vals with
    | nil =>
      simp only [fillRecord, Except.ok.injEq] at h
      subst h
      exact ⟨by simp, fun _ hk => hk⟩
    | cons v vs =>
      unfold fillRecord at h
      cases hcv : coerceCell parseFloat c.scanType v with
      | error e => simp [hcv] at h
      | ok x =>
        simp only [hcv] at h
        obtain ⟨h1, h2⟩ := ih vs (tmp.set c.name x) h
        constructor
        · intro k c1 cell hk hcell
          cases k with
          | zero =>
            simp only [List.getElem?_cons_zero, Option.some.injEq] at hk
            subst hk
            apply h2
            rw [Record.get_set_self]
            simp
          | succ k =>
            exact h1 k c1 cell (by simpa using hk) (by simpa using hcell)
        · intro key hkey
          apply h2
          by_cases hk : c.name = key
          · subst hk
            rw [Record.get_set_self]
            simp
          · rw [Record.get_set_ne tmp c.name key x hk]
            exact hkey

/-- `Query` after its four driver steps succeeded is its row loop. -/
theorem Query_rows {F : Type} (parseFloat : String → Except NumErrorKind F) (d : QueryDriver)
    (hp : d.prepare = none) (hq : d.query = none) (hc : d.columns = none)
    (ht : d.columnTypes = none) :
    Query parseFloat d = queryLoop parseFloat d.cols d.rows [] := by
  simp [Query, hp, hq, hc, ht]

/-- `Query` when one of its four driver steps fails: no record, one call of the
sink. -/
theorem Query_driver_error {F : Type} (parseFloat : String → Except NumErrorKind F)
    (d : QueryDriver)
    (h : d.prepare ≠ none ∨ d.query ≠ none ∨ d.columns ≠ none ∨ d.columnTypes ≠ none) :
    (Query parseFloat d).ret = [] ∧ (Query parseFloat d).sink.length = 1 := by
  unfold Query
  cases hp : d.prepare with
  | some e => exact ⟨rfl, rfl⟩
  | none =>
    cases hq : d.query with
    | some e => exact ⟨rfl, rfl⟩
    | none =>
      cases hc : d.columns with
      | some e => exact ⟨rfl, rfl⟩
      | none =>
        cases ht : d.columnTypes with
        | some e => exact ⟨rfl, rfl⟩
        | none => simp [hp, hq, hc, ht] at h

/-! ## Theorems: `Query` -/

/-- C5: for every result set with pairwise distinct column names, read after the driver
steps succeeded, `Query` returns in row order exactly one record for each row of the
longest run of leading rows that scan and coerce; the record of a row maps every column
name to the coerced value of the cell of that row. The sink is not called when every
row reads well, and called once when a row fails, the records of the rows before it
being what is returned. -/
theorem query_returns_good_rows {F : Type} (parseFloat : String → Except NumErrorKind F)
    (d : QueryDriver)
    (hp : d.prepare = none) (hq : d.query = none) (hc : d.columns = none)
    (ht : d.columnTypes = none)
    (hnodup : (d.cols.map Column.name).Nodup)
    (hlen : ∀ vals, Except.ok vals ∈ d.rows → vals.length = d.cols.length) :
    (Query parseFloat d).ret.length
      = (d.rows.takeWhile (rowCoerces parseFloat d.cols)).length ∧
    (∀ (n : Nat) (rec : Record F), (Query parseFloat d).ret[n]? = some rec →
      ∃ vals, d.rows[n]? = some (.ok vals) ∧
        ∀ (k : Nat) (c : Column), d.cols[k]? = some c →
          ∃ cell v, vals[k]? = some cell ∧
            coerceCell parseFloat c.scanType cell = .ok v ∧ rec.get c.name = some v) ∧
    ((d.rows.takeWhile (rowCoerces parseFloat d.cols)).length = d.rows.length →
      (Query parseFloat d).sink = []) ∧
    ((d.rows.takeWhile (rowCoerces parseFloat d.cols)).length ≠ d.rows.length →
      (Query parseFloat d).sink.length = 1) := by
  obtain ⟨recs, h1, h2, h3, h4⟩ := queryLoop_spec parseFloat d.cols d.rows []
  rw [Query_rows parseFloat d hp hq hc ht]
  simp only [List.nil_append] at h1
  rw [h1]
  refine ⟨h2, ?_, ?_, ?_⟩
  · intro n rec hn
    obtain ⟨vals, hv, hf⟩ := h3 n rec hn
    refine ⟨vals, hv, ?_⟩
    intro k c hk
    have hl := hlen vals (List.getElem?_mem hv)
    have hk2 : k < vals.length := by
      rw [hl]; exact (List.getElem?_eq_some.mp hk).1
    obtain ⟨v, hv1, hv2⟩ := (fillRecord_get parseFloat d.cols vals [] rec hnodup hf).1 k c
      vals[k] hk (List.getElem?_eq_getElem hk2)
    exact ⟨vals[k], v, List.getElem?_eq_getElem hk2, hv1, hv2⟩
  · intro hall
    rw [if_pos hall] at h4
    exact List.length_eq_zero.mp h4
  · intro hsome
    rw [if_neg hsome] at h4
    exact h4

/-- An instance of C5: of three rows whose second fails, `Query` returns one record,
the record of the first row, and calls the sink once. -/
theorem query_returns_good_rows_example :
    (Query parseFloatNone sampleQuery).ret.length = 1 ∧
    (Query parseFloatNone sampleQuery).sink.length = 1 ∧
    (Query parseFloatNone sampleQuery).ret
      = [[("id", Value.int64 1), ("ok", Value.bool true)]] := by
  have h := query_returns_good_rows parseFloatNone sampleQuery rfl rfl rfl rfl
    (by decide) (by
      intro vals hv
      simp only [sampleQuery, List.mem_cons, List.mem_singleton, List.not_mem_nil,
        or_false, Except.ok.injEq] at hv
      rcases hv with rfl | rfl | rfl <;> rfl)
  exact ⟨h.1.trans (by decide), h.2.2.2 (by decide), by decide⟩


/-- In a row that reads well every cell that has a column coerces. -/
theorem rowCoerces_cell {F : Type} (parseFloat : String → Except NumErrorKind F)
    (cols : List Column) (vals : List (Option String))
    (h : rowCoerces parseFloat cols (.ok vals) = true)
    (k : Nat) (c : Column) (cell : Option String)
    (hk : cols[k]? = some c) (hcell : vals[k]? = some cell) :
    ∃ v, coerceCell parseFloat c.scanType cell = .ok v := by
  induction cols generalizing vals k with
  | nil => simp at hk
  | cons c1 cs ih =>
    cases vals with
    | nil => simp at hcell
    | cons v vs =>
      simp only [rowCoerces, List.zip_cons_cons, List.all_cons, Bool.and_eq_true] at h
      cases k with
      | zero =>
        simp only [List.getElem?_cons_zero, Option.some.injEq] at hk hcell
        subst hk; subst hcell
        cases hcv : coerceCell parseFloat c1.scanType v with
        | error e => simp [hcv] at h
        | ok x => exact ⟨x, rfl⟩
      | succ k =>
        exact ih vs (by simpa [rowCoerces] using h.2) k (by simpa using hk)
          (by simpa using hcell)

/-- The leading run of rows that satisfy `p` ends at or before any row that does
not. -/
theorem takeWhile_length_le {α : Type} (p : α → Bool) (l : List α) (n : Nat) (a : α)
    (hn : l[n]? = some a) (ha : p a = false) : (l.takeWhile p).length ≤ n := by
  induction l generalizing n with
  | nil => simp
  | cons b bs ih =>
    cases n with
    | zero =>
      simp only [List.getElem?_cons_zero, Option.some.injEq] at hn
      subst hn
      simp [List.takeWhile_cons, ha]
    | succ n =>
      simp only [List.getElem?_cons_succ] at hn
      have := ih n hn
      rw [List.takeWhile_cons]
      split
      · simp only [List.length_cons]; omega
      · simp

/-- C6, as amended: for every result set in which some cell holds text that its
recognized integer, float or boolean scan type cannot parse, in whichever row that cell
occurs, `Query` calls the sink exactly once and returns only records of rows before
that row: once the driver steps succeeded, one record for each row of the longest run
of leading rows that read well, and no record when that run is empty. Every returned
record is the record of a row that read well and has an entry for every column; none is
partially populated. -/
theorem query_unparsable_cell {F : Type} (parseFloat : String → Except NumErrorKind F)
    (d : QueryDriver) (n k : Nat) (vals : List (Option String)) (c : Column) (s : String)
    (e : SqlError)
    (hrow : d.rows[n]? = some (.ok vals)) (hcol : d.cols[k]? = some c)
    (hcell : vals[k]? = some (some s))
    (hbad : coerceText parseFloat c.scanType s = .error e) :
    (Query parseFloat d).sink.length = 1 ∧
    (Query parseFloat d).ret.length ≤ n ∧
    (d.prepare = none → d.query = none → d.columns = none → d.columnTypes = none →
      (Query parseFloat d).ret.length
        = (d.rows.takeWhile (rowCoerces parseFloat d.cols)).length) ∧
    (∀ (m : Nat) (rec : Record F), (Query parseFloat d).ret[m]? = some rec →
      ∃ vals1, d.rows[m]? = some (.ok vals1) ∧
        rowCoerces parseFloat d.cols (.ok vals1) = true ∧
        ∀ (k1 : Nat) (c1 : Column) (cell : Option String),
          d.cols[k1]? = some c1 → vals1[k1]? = some cell → rec.get c1.name ≠ none) := by
  by_cases hd : d.prepare = none ∧ d.query = none ∧ d.columns = none ∧ d.columnTypes = none
  · obtain ⟨hp, hq, hc, ht⟩ := hd
    have hfalse : rowCoerces parseFloat d.cols (.ok vals) = false := by
      cases hg : rowCoerces parseFloat d.cols (.ok vals) with
      | false => rfl
      | true =>
        obtain ⟨v, hv⟩ := rowCoerces_cell parseFloat d.cols vals hg k c (some s) hcol hcell
        simp only [coerceCell, hbad] at hv
        cases hv
    have hle := takeWhile_length_le (rowCoerces parseFloat d.cols) d.rows n _ hrow hfalse
    have hlt : n < d.rows.length := (List.getElem?_eq_some.mp hrow).1
    obtain ⟨recs, h1, h2, h3, h4⟩ := queryLoop_spec parseFloat d.cols d.rows []
    rw [Query_rows parseFloat d hp hq hc ht]
    simp only [List.nil_append] at h1
    rw [h1]
    refine ⟨?_, by omega, fun _ _ _ _ => h2, ?_⟩
    · rw [h4, if_neg (by omega)]
    · intro m rec hm
      obtain ⟨vals1, hv, hf⟩ := h3 m rec hm
      exact ⟨vals1, hv, (fillRecord_ok_iff parseFloat d.cols vals1 []).mpr ⟨rec, hf⟩,
        (fillRecord_complete parseFloat d.cols vals1 [] rec hf).1⟩
  · have hd2 : d.prepare ≠ none ∨ d.query ≠ none ∨ d.columns ≠ none ∨ d.columnTypes ≠ none := by
      by_contra hcon
      simp only [not_or, not_not] at hcon
      exact hd hcon
    obtain ⟨h1, h2⟩ := Query_driver_error parseFloat d hd2
    refine ⟨h2, by simp [h1], ?_, by simp [h1]⟩
    intro hp hq hc ht
    exact absurd ⟨hp, hq, hc, ht⟩ hd

/-- C6 as stated fails: `abc` stands in the `int64` column of the second row, and
`Query` does not return an empty result; it returns the record of the first row. -/
theorem query_keeps_earlier_rows :
    coerceText parseFloatNone "int64" "abc" = .error (.num "ParseInt" "abc" .errSyn) ∧
    (Query parseFloatNone sampleQuery).sink.length = 1 ∧
    (Query parseFloatNone sampleQuery).ret ≠ [] := by
  decide

/-- An instance of C6 as amended: `abc` for the `int64` column in the second row. -/
theorem query_unparsable_cell_example :
    (Query parseFloatNone sampleQuery).sink.length = 1 ∧
    (Query parseFloatNone sampleQuery).ret.length ≤ 1 :=
  let h := query_unparsable_cell parseFloatNone sampleQuery 1 0 [some "abc", none]
    ⟨"id", "int64"⟩ "abc" (.num "ParseInt" "abc" .errSyn) rfl rfl rfl (by decide)
  ⟨h.1, h.2.1⟩

/-- The `switch` of `Query` never yields the nil `[]byte` of a null cell. -/
theorem coerceText_ne_nil {F : Type} (parseFloat : String → Except NumErrorKind F)
    (st vs : String) (v : Value F) (h : coerceText parseFloat st vs = .ok v) :
    v ≠ .nilBytes := by
  unfold coerceText at h
  intro hv
  subst hv
  split at h <;> first | (split at h <;> cases h) | cases h

/-- The `switch` of `Query` fails only under a recognized integer, float or boolean
type name: text, time, raw bytes and unknown names pass through. -/
theorem coerceText_error_names {F : Type} (parseFloat : String → Except NumErrorKind F)
    (st vs : String) (e : SqlError) (h : coerceText parseFloat st vs = .error e) :
    st ∈ ["int", "int8", "int16", "int32", "int64", "uint", "uint8", "uint16", "uint32",
      "uint64", "float32", "float64", "bool", "sql.NullBool", "sql.NullFloat64",
      "sql.NullInt32", "sql.NullInt64"] := by
  unfold coerceText at h
  split at h <;> first | cases h | decide

/-- Keys that name no column are as they were before the inner loop. -/
theorem fillRecord_frame {F : Type} (parseFloat : String → Except NumErrorKind F)
    (cols : List Column) (vals : List (Option String)) (tmp out : Record F) (key : String)
    (h : fillRecord parseFloat cols vals tmp = .ok out)
    (hkey : ∀ c ∈ cols, c.name ≠ key) : out.get key = tmp.get key := by
  induction cols generalizing vals tmp with
  | nil =>
    simp only [fillRecord, Except.ok.injEq] at h
    subst h; rfl
  | cons c cs ih =>
    cases vals with
    | nil =>
      simp only [fillRecord, Except.ok.injEq] at h
      subst h; rfl
    | cons v vs =>
      unfold fillRecord at h
      cases hcv : coerceCell parseFloat c.scanType v with
      | error e => simp [hcv] at h
      | ok x =>
        simp only [hcv] at h
        rw [ih vs (tmp.set c.name x) h (fun c1 hc1 => hkey c1 (List.mem_cons_of_mem _ hc1))]
        exact Record.get_set_ne tmp c.name key x (hkey c (List.mem_cons_self _ _))

/-- A record filled without error maps the name of a column that no later column
shares to the coerced value of the cell of that column. -/
theorem fillRecord_last {F : Type} (parseFloat : String → Except NumErrorKind F)
    (cols : List Column) (vals : List (Option String)) (tmp out : Record F)
    (k : Nat) (c : Column) (cell : Option String)
    (h : fillRecord parseFloat cols vals tmp = .ok out)
    (hk : cols[k]? = some c) (hcell : vals[k]? = some cell)
    (hlast : ∀ (k1 : Nat) (c1 : Column), k < k1 → cols[k1]? = some c1 → c1.name ≠ c.name) :
    ∃ v, coerceCell parseFloat c.scanType cell = .ok v ∧ out.get c.name = some v := by
  induction cols generalizing vals tmp k with
  | nil => simp at hk
  | cons c0 cs ih =>
    cases vals with
    | nil => simp at hcell
    | cons v vs =>
      unfold fillRecord at h
      cases hcv : coerceCell parseFloat c0.scanType v with
      | error e => simp [hcv] at h
      | ok x =>
        simp only [hcv] at h
        cases k with
        | zero =>
          simp only [List.getElem?_cons_zero, Option.some.injEq] at hk hcell
          subst hk; subst hcell
          refine ⟨x, hcv, ?_⟩
          rw [fillRecord_frame parseFloat cs vs _ out c0.name h (fun c1 hc1 => by
            obtain ⟨k1, hk1, hget⟩ := List.getElem_of_mem hc1
            exact hlast (k1 + 1) c1 (by omega)
              (by simp [List.getElem?_eq_getElem hk1, hget]))]
          exact Record.get_set_self tmp c0.name x
        | succ k =>
          exact ih vs (tmp.set c0.name x) k h (by simpa using hk) (by simpa using hcell)
            (fun k1 c1 hlt hc1 => hlast (k1 + 1) c1 (by omega) (by simpa using hc1))

/-- The leading run of rows that satisfy `p` reaches past every row up to which all
rows satisfy `p`. -/
theorem takeWhile_length_gt {α : Type} (p : α → Bool) (l : List α) (n : Nat)
    (h : ∀ m : Nat, m ≤ n → ∃ r, l[m]? = some r ∧ p r = true) :
    n < (l.takeWhile p).length := by
  induction l generalizing n with
  | nil => obtain ⟨r, hr, _⟩ := h 0 (Nat.zero_le _); simp at hr
  | cons a as ih =>
    obtain ⟨r, hr, hp⟩ := h 0 (Nat.zero_le _)
    simp only [List.getElem?_cons_zero, Option.some.injEq] at hr
    subst hr
    rw [List.takeWhile_cons, if_pos hp, List.length_cons]
    cases n with
    | zero => omega
    | succ n =>
      have := ih n (fun m hm => by
        obtain ⟨r, hr, hp1⟩ := h (m + 1) (by omega)
        exact ⟨r, by simpa using hr, hp1⟩)
      omega

/-- A row of null cells reads well under any scan types. -/
theorem rowCoerces_nulls {F : Type} (parseFloat : String → Except NumErrorKind F)
    (cols : List Column) (vals : List (Option String)) (h : ∀ cell ∈ vals, cell = none) :
    rowCoerces parseFloat cols (.ok vals) = true := by
  simp only [rowCoerces, List.all_eq_true]
  intro cv hcv
  have h2 : cv.2 = none := h cv.2 (List.of_mem_zip hcv).2
  simp [h2, coerceCell]

/-- C7, as amended: for every driver type name, a null cell coerces without error and
without coercion to the nil `[]byte` marker, which no non-null cell coerces to, be its
value zero, false or the empty text. In every result set read after the driver steps
succeeded, the record `Query` returns for a row that it reached maps the name of a
column whose cell is null in that row to the marker, provided no later column bears
the same name; and a result set whose cells are all null is read in full without a
call of the sink. -/
theorem null_cell_marker {F : Type} (parseFloat : String → Except NumErrorKind F)
    (d : QueryDriver)
    (hp : d.prepare = none) (hq : d.query = none) (hc : d.columns = none)
    (ht : d.columnTypes = none) :
    (∀ (n k : Nat) (vals : List (Option String)) (c : Column),
      (∀ m : Nat, m ≤ n → ∃ r, d.rows[m]? = some r ∧ rowCoerces parseFloat d.cols r = true) →
      d.rows[n]? = some (.ok vals) → d.cols[k]? = some c → vals[k]? = some none →
      (∀ (k1 : Nat) (c1 : Column), k < k1 → d.cols[k1]? = some c1 → c1.name ≠ c.name) →
      ∃ rec, (Query parseFloat d).ret[n]? = some rec ∧ rec.get c.name = some .nilBytes) ∧
    ((∀ r ∈ d.rows, ∃ vals, r = .ok vals ∧ ∀ cell ∈ vals, cell = none) →
      (Query parseFloat d).sink = [] ∧ (Query parseFloat d).ret.length = d.rows.length) ∧
    (∀ (st vs : String) (v : Value F), coerceCell parseFloat st (some vs) = .ok v →
      v ≠ .nilBytes) ∧
    (∀ st : String, coerceCell parseFloat st none = .ok .nilBytes) := by
  obtain ⟨recs, h1, h2, h3, h4⟩ := queryLoop_spec parseFloat d.cols d.rows []
  rw [Query_rows parseFloat d hp hq hc ht]
  simp only [List.nil_append] at h1
  rw [h1]
  refine ⟨?_, ?_, fun st vs v h => coerceText_ne_nil parseFloat st vs v h, fun _ => rfl⟩
  · intro n k vals c hgood hrow hcol hcell hlast
    have hlt : n < recs.length := by
      rw [h2]
      exact takeWhile_length_gt _ _ n hgood
    obtain ⟨vals1, hv, hf⟩ := h3 n recs[n] (List.getElem?_eq_getElem hlt)
    rw [hrow] at hv
    simp only [Option.some.injEq, Except.ok.injEq] at hv
    subst hv
    obtain ⟨v, hv1, hv2⟩ :=
      fillRecord_last parseFloat d.cols vals [] recs[n] k c none hf hcol hcell hlast
    simp only [coerceCell, Except.ok.injEq] at hv1
    subst hv1
    exact ⟨recs[n], List.getElem?_eq_getElem hlt, hv2⟩
  · intro hall
    have hfull : d.rows.takeWhile (rowCoerces parseFloat d.cols) = d.rows := by
      rw [List.takeWhile_eq_self_iff]
      intro r hr
      obtain ⟨vals, rfl, hn⟩ := hall r hr
      exact rowCoerces_nulls parseFloat d.cols vals hn
    rw [hfull] at h2 h4
    simp only [if_true] at h4
    exact ⟨List.length_eq_zero.mp h4, h2⟩

/-- C7 as stated fails when two columns bear the same name: of the row `(NULL, 5)`
under the columns `id`, `id` the record keeps 5 for `id`, written after the marker of
the null cell, and the marker is not stored. -/
theorem null_cell_overwritten :
    Query parseFloatNone
      ⟨none, none, none, none, [⟨"id", "int64"⟩, ⟨"id", "int64"⟩], [.ok [none, some "5"]]⟩
      = ⟨[[("id", Value.int64 5)]], []⟩ ∧
    Record.get [("id", (Value.int64 5 : Value Unit))] "id" ≠ some .nilBytes := by
  decide

/-- An instance of C7 as amended: the row `(NULL, "x")` under the columns `id` of scan
type `int64` and `note` of scan type `string` gives a record that maps `id` to the
marker. -/
theorem null_cell_marker_example :
    ∃ rec, (Query parseFloatNone
        ⟨none, none, none, none, [⟨"id", "int64"⟩, ⟨"note", "string"⟩],
          [.ok [none, some "x"]]⟩).ret[0]? = some rec ∧
      rec.get "id" = some .nilBytes :=
  (null_cell_marker parseFloatNone
      ⟨none, none, none, none, [⟨"id", "int64"⟩, ⟨"note", "string"⟩], [.ok [none, some "x"]]⟩
      rfl rfl rfl rfl).1 0 0 [none, some "x"] ⟨"id", "int64"⟩
    (by
      intro m hm
      have hm0 : m = 0 := by omega
      subst hm0
      exact ⟨_, rfl, by decide⟩)
    rfl rfl rfl
    (by
      intro k1 c1 hlt hc1
      rcases k1 with _ | _ | k1
      · omega
      · simp only [List.getElem?_cons_succ, List.getElem?_cons_zero, Option.some.injEq] at hc1
        subst hc1
        decide
      · simp at hc1)

/-! ## Theorems: the round trip through text -/

/-- The character of a decimal digit is accepted by `ParseUint` as that digit. -/
theorem digitChar_digit (d : Nat) (h : d < 10) :
    '0' ≤ Nat.digitChar d ∧ Nat.digitChar d ≤ '9' ∧
      (Nat.digitChar d).toNat - '0'.toNat = d := by
  interval_cases d <;> decide

/-- One step of the `ParseUint` loop on a digit that keeps the value within
`uint64`. -/
theorem parseUintLoop_digit (d m : Nat) (acc : List Char) (hd : d < 10)
    (hm : m * 10 + d ≤ maxUint64) :
    parseUintLoop (Nat.digitChar d :: acc) m = parseUintLoop acc (m * 10 + d) := by
  obtain ⟨h1, h2, h3⟩ := digitChar_digit d hd
  have hmax : maxUint64 = 18446744073709551615 := by decide
  rw [hmax] at hm
  rw [parseUintLoop, if_pos ⟨h1, h2⟩]
  simp only [h3, hmax]
  have hmod : (m * 10 + d) % 2 ^ 64 = m * 10 + d := Nat.mod_eq_of_lt (by omega)
  rw [hmod, if_neg (by omega), if_neg (by omega)]

/-- Parsing the decimal digits of `n` written before `acc` is parsing `acc` from the
value `n`. -/
theorem parseUintLoop_toDigitsCore (fuel n : Nat) (acc : List Char)
    (hfuel : n < fuel) (hn : n ≤ maxUint64) :
    parseUintLoop (Nat.toDigitsCore 10 fuel n acc) 0 = parseUintLoop acc n := by
  induction fuel generalizing n acc with
  | zero => omega
  | succ fuel ih =>
    unfold Nat.toDigitsCore
    have hd : n % 10 < 10 := Nat.mod_lt _ (by omega)
    simp only
    split
    · rename_i h0
      have hlt : n < 10 := by omega
      have := parseUintLoop_digit (n % 10) 0 acc hd (by
        have hmax : maxUint64 = 18446744073709551615 := by decide
        omega)
      rw [this]
      congr 1
      omega
    · rename_i h0
      rw [ih (n / 10) (Nat.digitChar (n % 10) :: acc) (by omega) (by omega)]
      have := parseUintLoop_digit (n % 10) (n / 10) acc hd (by omega)
      rw [this]
      congr 1
      omega

/-- `ParseUint` reads back the decimal digits of every `uint64`. -/
theorem parseUintLoop_toDigits (n : Nat) (hn : n ≤ maxUint64) :
    parseUintLoop (Nat.toDigits 10 n) 0 = .ok n := by
  unfold Nat.toDigits
  rw [parseUintLoop_toDigitsCore (n + 1) n [] (by omega) hn]
  rfl

/-- The decimal digits of a number are at least one character. -/
theorem toDigits_ne_nil (n : Nat) (hn : n ≤ maxUint64) : Nat.toDigits 10 n ≠ [] := by
  intro h
  have h1 := parseUintLoop_toDigits n hn
  rw [h] at h1
  simp only [parseUintLoop, Except.ok.injEq] at h1
  subst h1
  revert h
  decide

/-- `ParseUint` reads back `FormatUint`. -/
theorem parseUint_formatUint (n : Nat) (hn : n < 2 ^ 64) :
    parseUint (formatUint n) = .ok n := by
  have hmax : maxUint64 = 18446744073709551615 := by decide
  have hn1 : n ≤ maxUint64 := by omega
  unfold parseUint formatUint
  have hne : String.mk (Nat.toDigits 10 n) ≠ "" := by
    intro h
    exact toDigits_ne_nil n hn1 (congrArg String.data h)
  rw [if_neg hne]
  exact parseUintLoop_toDigits n hn1

/-- A text `ParseUint` reads as a value below `2^63` is read by `ParseInt` as that
value. -/
theorem parseIntChars_pos (l : List Char) (un : Nat) (h : parseUintLoop l 0 = .ok un)
    (hne : l ≠ []) (hun : un < 2 ^ 63) : parseIntChars l = .ok (un : Int) := by
  cases l with
  | nil => exact absurd rfl hne
  | cons c cs =>
    have hc : '0' ≤ c ∧ c ≤ '9' := by
      by_contra hcon
      unfold parseUintLoop at h
      rw [if_neg hcon] at h
      cases h
    have hplus : c ≠ '+' := by
      rintro rfl
      exact absurd hc.1 (by decide)
    have hminus : c ≠ '-' := by
      rintro rfl
      exact absurd hc.1 (by decide)
    unfold parseIntChars
    simp only [hplus, hminus, or_self, if_false, h]
    simp only [reduceCtorEq, if_false, false_and, not_false_eq_true, true_and]
    rw [if_neg (by omega)]

/-- A text `ParseUint` reads as a value up to `2^63` is read by `ParseInt`, after a
minus sign, as the opposite value. -/
theorem parseIntChars_neg (l : List Char) (un : Nat) (h : parseUintLoop l 0 = .ok un)
    (hne : l ≠ []) (hun : un ≤ 2 ^ 63) : parseIntChars ('-' :: l) = .ok (-(un : Int)) := by
  unfold parseIntChars
  simp only [or_true, if_true, hne, if_false, h]
  simp only [not_true_eq_false, false_and, if_false, true_and]
  rw [if_neg (by omega)]

/-- `ParseInt` reads back `FormatInt` on every `int64`. -/
theorem parseInt_formatInt (n : Int) (hlo : -2 ^ 63 ≤ n) (hhi : n < 2 ^ 63) :
    parseInt (formatInt n) = .ok n := by
  have hmax : maxUint64 = 18446744073709551615 := by decide
  unfold parseInt formatInt
  split
  · rename_i hneg
    have hb : n.natAbs ≤ 2 ^ 63 := by omega
    have h1 := parseIntChars_neg (Nat.toDigits 10 n.natAbs) n.natAbs
      (parseUintLoop_toDigits _ (by omega)) (toDigits_ne_nil _ (by omega)) hb
    have h2 : -(n.natAbs : Int) = n := by omega
    rw [h2] at h1
    exact h1
  · rename_i hpos
    have hb : n.toNat < 2 ^ 63 := by omega
    have h1 := parseIntChars_pos (Nat.toDigits 10 n.toNat) n.toNat
      (parseUintLoop_toDigits _ (by omega)) (toDigits_ne_nil _ (by omega)) hb
    have h2 : (n.toNat : Int) = n := by omega
    rw [h2] at h1
    exact h1


/-- C8, as amended: for every recognized integer, float or boolean type name and every
raw text that is the canonical text of a value of the type, coercion succeeds and
formatting the coerced value back to text yields exactly the raw text. The canonical
text is the decimal text of an `int64` or `uint64`, without plus sign or leading zeros;
`true` or `false`; and for a `float64` the text the formatter writes for it, when the
parser reads that text back as the same `float64`. -/
theorem canonical_text_round_trip {F : Type} (parseFloat : String → Except NumErrorKind F)
    (formatFloat : F → String) :
    (∀ st ∈ ["int8", "int16", "int32", "int64", "sql.NullInt32", "sql.NullInt64"],
      ∀ n : Int, -2 ^ 63 ≤ n → n < 2 ^ 63 →
        coerceText parseFloat st (formatInt n) = .ok (.int64 n) ∧
        formatValue formatFloat (Value.int64 n) = some (formatInt n)) ∧
    (∀ n : Int, -2 ^ 63 ≤ n → n < 2 ^ 63 →
        coerceText parseFloat "int" (formatInt n) = .ok (.int n) ∧
        formatValue formatFloat (Value.int n) = some (formatInt n)) ∧
    (∀ st ∈ ["uint", "uint8", "uint16", "uint32", "uint64"],
      ∀ n : Nat, n < 2 ^ 64 →
        coerceText parseFloat st (formatUint n) = .ok (.uint64 n) ∧
        formatValue formatFloat (Value.uint64 n) = some (formatUint n)) ∧
    (∀ st ∈ ["bool", "sql.NullBool"],
      ∀ b : Bool,
        coerceText parseFloat st (formatBool b) = .ok (.bool b) ∧
        formatValue formatFloat (Value.bool b) = some (formatBool b)) ∧
    (∀ st ∈ ["float32", "float64", "sql.NullFloat64"],
      ∀ x : F, parseFloat (formatFloat x) = .ok x →
        coerceText parseFloat st (formatFloat x) = .ok (.float64 x) ∧
        formatValue formatFloat (Value.float64 x) = some (formatFloat x)) := by
  refine ⟨?_, ?_, ?_, ?_, ?_⟩
  · intro st hst n hlo hhi
    have hp := parseInt_formatInt n hlo hhi
    simp only [List.mem_cons, List.mem_singleton, List.not_mem_nil, or_false] at hst
    rcases hst with rfl | rfl | rfl | rfl | rfl | rfl <;>
      exact ⟨by simp [coerceText, hp], rfl⟩
  · intro n hlo hhi
    have hp := parseInt_formatInt n hlo hhi
    exact ⟨by simp [coerceText, atoi, hp], rfl⟩
  · intro st hst n hn
    have hp := parseUint_formatUint n hn
    simp only [List.mem_cons, List.mem_singleton, List.not_mem_nil, or_false] at hst
    rcases hst with rfl | rfl | rfl | rfl | rfl <;>
      exact ⟨by simp [coerceText, hp], rfl⟩
  · intro st hst b
    simp only [List.mem_cons, List.mem_singleton, List.not_mem_nil, or_false] at hst
    rcases hst with rfl | rfl <;> cases b <;>
      exact ⟨by simp [coerceText, formatBool, parseBool], rfl⟩
  · intro st hst x hx
    simp only [List.mem_cons, List.mem_singleton, List.not_mem_nil, or_false] at hst
    rcases hst with rfl | rfl | rfl <;>
      exact ⟨by simp [coerceText, hx], rfl⟩

/-- C8 as stated fails in each family: `+1` and `007` coerce as `int64` to 1 and 7 and
`1` coerces as `bool` to true, and formatting these back gives `1`, `7` and `true`; and
whatever the `float64` values and their formatter are, once `1` and `1.0` parse to the
same `float64`, as they do with `strconv.ParseFloat`, formatting cannot give back
both. -/
theorem round_trip_fails_off_canonical :
    (coerceText parseFloatNone "int64" "+1" = .ok (.int64 1) ∧
      formatValue (fun _ : Unit => "") (Value.int64 1) ≠ some "+1") ∧
    (coerceText parseFloatNone "int64" "007" = .ok (.int64 7) ∧
      formatValue (fun _ : Unit => "") (Value.int64 7) ≠ some "007") ∧
    (coerceText parseFloatNone "bool" "1" = .ok (.bool true) ∧
      formatValue (fun _ : Unit => "") (Value.bool true) ≠ some "1") ∧
    (¬ ∃ (F : Type) (parseFloat : String → Except NumErrorKind F) (formatFloat : F → String)
        (x : F), parseFloat "1" = .ok x ∧ parseFloat "1.0" = .ok x ∧
        (∀ v, coerceText parseFloat "float64" "1" = .ok v →
          formatValue formatFloat v = some "1") ∧
        (∀ v, coerceText parseFloat "float64" "1.0" = .ok v →
          formatValue formatFloat v = some "1.0")) := by
  refine ⟨by decide, by decide, by decide, ?_⟩
  rintro ⟨F, parseFloat, formatFloat, x, h1, h2, r1, r2⟩
  have e1 := r1 (.float64 x) (by simp [coerceText, h1])
  have e2 := r2 (.float64 x) (by simp [coerceText, h2])
  simp only [formatValue, Option.some.injEq] at e1 e2
  rw [e1] at e2
  exact absurd e2 (by decide)

/-- An instance of C8 as amended: the canonical text of -42 under `int64`, and `false`
under `sql.NullBool`. -/
theorem canonical_text_round_trip_example :
    (coerceText parseFloatNone "int64" (formatInt (-42)) = .ok (.int64 (-42)) ∧
      formatValue (fun _ : Unit => "") (Value.int64 (-42)) = some (formatInt (-42))) ∧
    (coerceText parseFloatNone "sql.NullBool" (formatBool false) = .ok (.bool false) ∧
      formatValue (fun _ : Unit => "") (Value.bool false) = some (formatBool false)) :=
  ⟨(canonical_text_round_trip parseFloatNone (fun _ : Unit => "")).1 "int64" (by decide)
      (-42) (by decide) (by decide),
   (canonical_text_round_trip parseFloatNone (fun _ : Unit => "")).2.2.2.1 "sql.NullBool"
      (by decide) false⟩

/-! ## Theorems: `GetAll` aborting at a row -/

/-- A column whose field is missing or unexported makes the resolution loop fail,
whatever the columns before it resolve to. -/
theorem resolveFields_fail {FT : Type} (toPascal shown : String → String)
    (st : StructType FT) (cols : List String) (scans : List (FieldAddr FT))
    (h : ∃ col ∈ cols, fieldByName st (toPascal col) = none ∨
      ∃ i f, fieldByName st (toPascal col) = some (i, f) ∧ f.exported = false) :
    ∃ e, resolveFields toPascal shown st cols scans = .error e := by
  induction cols generalizing scans with
  | nil => obtain ⟨col, hc, _⟩ := h; cases hc
  | cons c cs ih =>
    unfold resolveFields
    cases hf : fieldByName st (toPascal c) with
    | none => exact ⟨_, rfl⟩
    | some p =>
      obtain ⟨i, f⟩ := p
      simp only
      split
      · exact ⟨_, rfl⟩
      · rename_i hexp
        apply ih
        obtain ⟨col, hc, hn⟩ := h
        rcases List.mem_cons.mp hc with rfl | hmem
        · rcases hn with hn | ⟨i1, f1, hn, hx⟩
          · rw [hf] at hn; cases hn
          · rw [hf] at hn
            simp only [Option.some.injEq, Prod.mk.injEq] at hn
            obtain ⟨rfl, rfl⟩ := hn
            exact absurd hx hexp
        · exact ⟨col, hmem, hn⟩

/-- A scan with a cell that does not convert fails, whatever record it writes into. -/
theorem scanCells_fail {DV FT V : Type} (lib : ScanLib DV FT V) (columns : List String)
    (i0 : Nat) (scans : List (FieldAddr FT)) (row : List DV) (r : List V)
    (h : ∃ (k : Nat) (a : FieldAddr FT) (cell : DV) (e1 : SqlError),
      scans[k]? = some a ∧ row[k]? = some cell ∧ lib.convertAssign cell a.ty = .error e1) :
    ∃ e, scanCells lib columns i0 scans row r = .error e := by
  induction scans generalizing row r i0 with
  | nil => obtain ⟨k, a, cell, e1, hk, _⟩ := h; simp at hk
  | cons a as ih =>
    cases row with
    | nil => obtain ⟨k, a1, cell, e1, _, hcell, _⟩ := h; simp at hcell
    | cons c cs =>
      unfold scanCells
      cases hcv : lib.convertAssign c a.ty with
      | error e => exact ⟨_, rfl⟩
      | ok x =>
        simp only
        apply ih
        obtain ⟨k, a1, cell, e1, hk, hcell, hbad⟩ := h
        cases k with
        | zero =>
          simp only [List.getElem?_cons_zero, Option.some.injEq] at hk hcell
          subst hk; subst hcell
          rw [hcv] at hbad
          cases hbad
        | succ k =>
          exact ⟨k, a1, cell, e1, by simpa using hk, by simpa using hcell, hbad⟩

/-- A row fails to scan through resolved addresses when it has not one cell for each
column or when one of its cells does not convert into the type of its field. -/
theorem rowsScan_fail {DV FT V : Type} (lib : ScanLib DV FT V) (toPascal : String → String)
    (columns : List String)
    (st : StructType FT) (cols : List String) (new : List (FieldAddr FT))
    (bad : List DV) (r : List V)
    (hlen : new.length = cols.length)
    (hnew : ∀ (k : Nat) (col : String), cols[k]? = some col →
      ∃ i f, fieldByName st (toPascal col) = some (i, f) ∧
        new[k]? = some (FieldAddr.mk i f.ty))
    (hbad : bad.length ≠ cols.length ∨
      ∃ (k : Nat) (col : String) (cell : DV) (i : Nat) (f : FieldDecl FT) (e1 : SqlError),
        cols[k]? = some col ∧ bad[k]? = some cell ∧
        fieldByName st (toPascal col) = some (i, f) ∧
        lib.convertAssign cell f.ty = .error e1) :
    ∃ e, rowsScan lib columns new bad r = .error e := by
  unfold rowsScan
  split
  · exact ⟨_, rfl⟩
  · rename_i hl
    rcases hbad with hb | ⟨k, col, cell, i, f, e1, hc, hcell, hf, hcv⟩
    · exact absurd (by omega) hl
    · apply scanCells_fail
      obtain ⟨i1, f1, hf1, hn⟩ := hnew k col hc
      rw [hf] at hf1
      simp only [Option.some.injEq, Prod.mk.injEq] at hf1
      obtain ⟨rfl, rfl⟩ := hf1
      exact ⟨k, _, cell, e1, hn, hcell, hcv⟩

/-- The by-value row loop on rows that convert followed by a row that fails: the loop
ends at the bare `return` of the failing row. -/
theorem valueLoop_fail {DV FT V : Type} (lib : ScanLib DV FT V) (toPascal : String → String)
    (columns : List String)
    (st : StructType FT) (cols : List String) (new : List (FieldAddr FT))
    (hnodup : (cols.map toPascal).Nodup)
    (hlen : new.length = cols.length)
    (hnew : ∀ (k : Nat) (col : String), cols[k]? = some col →
      ∃ i f, fieldByName st (toPascal col) = some (i, f) ∧
        new[k]? = some (FieldAddr.mk i f.ty))
    (pre : List (List DV)) (bad : List DV) (rest : List (List DV))
    (acc : List (List V)) (proto : List V)
    (hproto : proto.length = st.fields.length)
    (hpre : ∀ row ∈ pre, row.length = cols.length ∧
      ∀ (k : Nat) (col : String) (cell : DV) (i : Nat) (f : FieldDecl FT),
        cols[k]? = some col → row[k]? = some cell →
        fieldByName st (toPascal col) = some (i, f) →
        ∃ v, lib.convertAssign cell f.ty = .ok v)
    (hbad : bad.length ≠ cols.length ∨
      ∃ (k : Nat) (col : String) (cell : DV) (i : Nat) (f : FieldDecl FT) (e1 : SqlError),
        cols[k]? = some col ∧ bad[k]? = some cell ∧
        fieldByName st (toPascal col) = some (i, f) ∧
        lib.convertAssign cell f.ty = .error e1) :
    ∃ e, valueLoop lib columns new (pre ++ bad :: rest) (some (.values acc)) proto
      = .failed e := by
  induction pre generalizing acc proto with
  | nil =>
    obtain ⟨e, he⟩ := rowsScan_fail lib toPascal columns st cols new bad proto hlen hnew hbad
    exact ⟨e, by simp [valueLoop, he]⟩
  | cons row more ih =>
    obtain ⟨hl, hcv⟩ := hpre row (List.mem_cons_self _ _)
    obtain ⟨out, h1, h2, _, _⟩ := rowsScan_bound lib toPascal columns st cols new row proto
      hnodup hlen hnew hl hproto hcv
    obtain ⟨e, he⟩ := ih (acc ++ [out]) out h2
      (fun r hr => hpre r (List.mem_cons_of_mem _ hr))
    refine ⟨e, ?_⟩
    simp only [List.cons_append]
    unfold valueLoop
    simp only [h1]
    exact he

/-- The by-reference row loop on rows that convert followed by a row that fails: the
loop ends at the bare `return` of the failing row. -/
theorem refLoop_fail {DV FT V : Type} (lib : ScanLib DV FT V) (toPascal : String → String)
    (st : StructType FT) (cols : List String)
    (hmatch : ∀ col ∈ cols, ∃ i f,
      fieldByName st (toPascal col) = some (i, f) ∧ f.exported = true)
    (hnodup : (cols.map toPascal).Nodup)
    (pre : List (List DV)) (bad : List DV) (rest : List (List DV))
    (acc : List (Option (List V)))
    (hpre : ∀ row ∈ pre, row.length = cols.length ∧
      ∀ (k : Nat) (col : String) (cell : DV) (i : Nat) (f : FieldDecl FT),
        cols[k]? = some col → row[k]? = some cell →
        fieldByName st (toPascal col) = some (i, f) →
        ∃ v, lib.convertAssign cell f.ty = .ok v)
    (hbad : bad.length ≠ cols.length ∨
      ∃ (k : Nat) (col : String) (cell : DV) (i : Nat) (f : FieldDecl FT) (e1 : SqlError),
        cols[k]? = some col ∧ bad[k]? = some cell ∧
        fieldByName st (toPascal col) = some (i, f) ∧
        lib.convertAssign cell f.ty = .error e1) :
    ∃ e, refLoop lib toPascal st cols (pre ++ bad :: rest) (some (.refs acc)) = .failed e := by
  obtain ⟨new, h1, h2, h3⟩ := resolveFields_ok toPascal id st cols [] hmatch
  simp only [List.nil_append] at h1
  induction pre generalizing acc with
  | nil =>
    obtain ⟨e, he⟩ := rowsScan_fail lib toPascal cols st cols new bad (zeroRecord lib st)
      h2 h3 hbad
    exact ⟨e, by simp [refLoop, h1, he]⟩
  | cons row more ih =>
    obtain ⟨hl, hcv⟩ := hpre row (List.mem_cons_self _ _)
    obtain ⟨out, h4, _, _, _⟩ := rowsScan_bound lib toPascal cols st cols new row
      (zeroRecord lib st) hnodup h2 h3 hl (by simp [zeroRecord]) hcv
    obtain ⟨e, he⟩ := ih (acc ++ [some out])
      (fun r hr => hpre r (List.mem_cons_of_mem _ hr))
    refine ⟨e, ?_⟩
    simp only [List.cons_append]
    unfold refLoop
    simp only [h1, h4]
    exact he

/-- C4, as amended: when the driver steps succeed and `GetAll` aborts, the destination
holds after the call exactly what it held before it and the sink got exactly one error;
the rows bound and appended before the failure are not kept. This holds (1) when a
column has a missing or unexported field, in the by-value mode whatever the rows and in
the by-reference mode as soon as there is a row, and (2) when the scan of a row fails
after any number of rows that were bound, in both modes. -/
theorem getAll_failure_keeps_destination {DV FT V : Type} (lib : ScanLib DV FT V)
    (toPascal : String → String) (st : StructType FT) (d : BindDriver DV)
    (hp : d.prepare = none) (hq : d.query = none) (hc : d.columns = none) :
    ((∃ col ∈ d.cols, fieldByName st (toPascal col) = none ∨
        ∃ i f, fieldByName st (toPascal col) = some (i, f) ∧ f.exported = false) →
      (∀ prior : List (List V), ∃ e,
        GetAll lib toPascal (.typed (.ptr (.slice (.struct st))) (some (.values prior))) d
          = .returned [e] (some (.values prior))) ∧
      (d.rows ≠ [] → ∀ prior : List (Option (List V)), ∃ e,
        GetAll lib toPascal (.typed (.ptr (.slice (.ptr (.struct st)))) (some (.refs prior))) d
          = .returned [e] (some (.refs prior)))) ∧
    (∀ (pre : List (List DV)) (bad : List DV) (rest : List (List DV)),
      d.rows = pre ++ bad :: rest →
      (∀ col ∈ d.cols, ∃ i f,
        fieldByName st (toPascal col) = some (i, f) ∧ f.exported = true) →
      (d.cols.map toPascal).Nodup →
      (∀ row ∈ pre, row.length = d.cols.length ∧
        ∀ (k : Nat) (col : String) (cell : DV) (i : Nat) (f : FieldDecl FT),
          d.cols[k]? = some col → row[k]? = some cell →
          fieldByName st (toPascal col) = some (i, f) →
          ∃ v, lib.convertAssign cell f.ty = .ok v) →
      (bad.length ≠ d.cols.length ∨
        ∃ (k : Nat) (col : String) (cell : DV) (i : Nat) (f : FieldDecl FT) (e1 : SqlError),
          d.cols[k]? = some col ∧ bad[k]? = some cell ∧
          fieldByName st (toPascal col) = some (i, f) ∧
          lib.convertAssign cell f.ty = .error e1) →
      (∀ prior : List (List V), ∃ e,
        GetAll lib toPascal (.typed (.ptr (.slice (.struct st))) (some (.values prior))) d
          = .returned [e] (some (.values prior))) ∧
      (∀ prior : List (Option (List V)), ∃ e,
        GetAll lib toPascal (.typed (.ptr (.slice (.ptr (.struct st)))) (some (.refs prior))) d
          = .returned [e] (some (.refs prior)))) := by
  constructor
  · intro hmiss
    constructor
    · intro prior
      obtain ⟨e, he⟩ := resolveFields_fail toPascal id st d.cols [] hmiss
      exact ⟨e, by simp [GetAll, hp, hq, hc, he]⟩
    · intro hrows prior
      obtain ⟨e, he⟩ := resolveFields_fail toPascal id st d.cols [] hmiss
      cases hr : d.rows with
      | nil => exact absurd hr hrows
      | cons row rest => exact ⟨e, by simp [GetAll, hp, hq, hc, hr, refLoop, he, finishAll]⟩
  · intro pre bad rest hrows hmatch hnodup hpre hbad
    constructor
    · intro prior
      obtain ⟨new, h1, h2, h3⟩ := resolveFields_ok toPascal id st d.cols [] hmatch
      simp only [List.nil_append] at h1
      obtain ⟨e, he⟩ := valueLoop_fail lib toPascal d.cols st d.cols new hnodup h2 h3
        pre bad rest prior (zeroRecord lib st) (by simp [zeroRecord]) hpre hbad
      exact ⟨e, by simp [GetAll, hp, hq, hc, h1, hrows, he, finishAll]⟩
    · intro prior
      obtain ⟨e, he⟩ := refLoop_fail lib toPascal st d.cols hmatch hnodup pre bad rest prior
        hpre hbad
      exact ⟨e, by simp [GetAll, hp, hq, hc, hrows, he, finishAll]⟩

/-- C4 as stated fails: on `brokenRows` the first row is bound and appended, `1` and
`true` standing in the appended element, and the scan of the second row fails; the
destination, empty before the call, is empty after it in both modes, and no outcome
leaves the one appended element in it. -/
theorem getAll_drops_bound_rows :
    valueLoop sqlLib brokenRows.cols [⟨0, .int64⟩, ⟨1, .bool⟩] [[.int64 1, .text "true"]]
        (some (.values [])) [.int64 0, .bool false]
      = .done (some (.values [[.int64 1, .bool true]])) ∧
    (∃ e, GetAll sqlLib UnderlineToPascal
        (.typed (.ptr (.slice (.struct userType))) (some (.values []))) brokenRows
      = .returned [e] (some (.values []))) ∧
    (¬ ∃ sink, GetAll sqlLib UnderlineToPascal
        (.typed (.ptr (.slice (.struct userType))) (some (.values []))) brokenRows
      = .returned sink (some (.values [[.int64 1, .bool true]]))) ∧
    (∃ e, GetAll sqlLib UnderlineToPascal
        (.typed (.ptr (.slice (.ptr (.struct userType)))) (some (.refs []))) brokenRows
      = .returned [e] (some (.refs []))) := by
  have h : GetAll sqlLib UnderlineToPascal
      (.typed (.ptr (.slice (.struct userType))) (some (.values []))) brokenRows
      = .returned [.scan 0 "user_id" (.converting "string" "abc" "int64" .errSyn)]
          (some (.values [])) := by decide
  have h2 : GetAll sqlLib UnderlineToPascal
      (.typed (.ptr (.slice (.ptr (.struct userType)))) (some (.refs []))) brokenRows
      = .returned [.scan 0 "user_id" (.converting "string" "abc" "int64" .errSyn)]
          (some (.refs [])) := by decide
  refine ⟨by decide, ⟨_, h⟩, ?_, ⟨_, h2⟩⟩
  rintro ⟨sink, hs⟩
  rw [h] at hs
  cases hs

/-- An instance of C4 as amended: on `brokenRows`, whose second row holds `abc` for
the `int64` field after a first row that is bound, a destination holding one element
holds exactly that element after the call. -/
theorem getAll_failure_keeps_destination_example :
    ∃ e, GetAll sqlLib UnderlineToPascal
        (.typed (.ptr (.slice (.struct userType))) (some (.values [[.int64 9, .bool true]])))
        brokenRows
      = .returned [e] (some (.values [[.int64 9, .bool true]])) :=
  ((getAll_failure_keeps_destination sqlLib UnderlineToPascal userType brokenRows
      rfl rfl rfl).2
    [[.int64 1, .text "true"]] [.text "abc", .text "false"] [[.int64 3, .text "true"]] rfl
    userRows_match (by decide)
    (by
      intro row hrow
      simp only [List.mem_singleton] at hrow
      subst hrow
      exact ⟨rfl, userRows_convert 1 "true" (Or.inl rfl)⟩)
    (Or.inr ⟨0, "user_id", .text "abc", 0, _, .converting "string" "abc" "int64" .errSyn,
      rfl, rfl, userType_fields.1, by decide⟩)).1
    [[.int64 9, .bool true]]

end Gsh
